import Mathlib

/-!
# fly volumes: identifier resolution, ordering and the run of the command

A shallow embedding of `fly/commands/volumes.go`.

* Go strings are modelled by `String`; the byte-wise comparison of Go agrees with the
  code-point comparison of `String` on valid UTF-8.
* A nil-pointer dereference is a run-time panic in Go; operations that can dereference a
  pointer return `Except GoPanic _`.
* `yaml.Marshal` (package sigs.k8s.io/yaml) and `sort.Sort` (standard library) are external:
  the serializer is a parameter of `presentMap`, the sorting procedure a parameter of `Execute`.
-/

set_option autoImplicit false

/-! ## Standard-library string helpers -/

/-- Go `unicode.IsSpace`: the Unicode White_Space code points. -/
def unicode.IsSpace (c : Char) : Bool :=
  let n := c.toNat
  n == 0x09 || n == 0x0A || n == 0x0B || n == 0x0C || n == 0x0D || n == 0x20 ||
  n == 0x85 || n == 0xA0 || n == 0x1680 || (0x2000 ≤ n && n ≤ 0x200A) ||
  n == 0x2028 || n == 0x2029 || n == 0x202F || n == 0x205F || n == 0x3000

/-- Go `strings.TrimSpace`: remove leading and trailing white space. -/
def strings.TrimSpace (s : String) : String :=
  ⟨((s.data.dropWhile unicode.IsSpace).reverse.dropWhile unicode.IsSpace).reverse⟩

/-- Splitting of a character list at every occurrence of `sep`; `n` occurrences give `n + 1`
pieces. -/
def strings.splitChars (sep : Char) : List Char → List (List Char)
  | [] => [[]]
  | c :: cs =>
    if c = sep then [] :: strings.splitChars sep cs
    else
      match strings.splitChars sep cs with
      | [] => [[c]]
      | l :: ls => (c :: l) :: ls

/-- Go `strings.Split(s, sep)` for a one-character separator. -/
def strings.Split (s : String) (sep : Char) : List String :=
  (strings.splitChars sep s.data).map String.mk

/-- Go `strings.Join(elems, sep)`. -/
def strings.Join (elems : List String) (sep : String) : String :=
  ⟨List.intercalate sep.data (elems.map String.data)⟩

/-- Go `strings.Replace(s, old, new, -1)` for a one-character `old`: every occurrence is
replaced. -/
def strings.Replace (s : String) (old : Char) (new : String) : String :=
  ⟨s.data.flatMap fun c => if c = old then new.data else [c]⟩

/-- Go `strings.Contains(s, substr)`: `substr` occurs in `s` as a contiguous block. -/
def strings.Contains (s substr : String) : Prop :=
  substr.data <:+: s.data

instance (s substr : String) : Decidable (strings.Contains s substr) :=
  inferInstanceAs (Decidable (substr.data <:+: s.data))

/-! ## Data model (package atc) -/

/-- The run-time failure of a Go program that this file tracks. -/
inductive GoPanic
  | nilDereference
  deriving DecidableEq, Repr

/-- Modelled from the spec: the type `atc.Version`, declared outside the given sources; a
mapping from string keys to string values, listed in the order of serialization. -/
abbrev Version := List (String × String)

/-- Modelled from the spec: the record `atc.VolumeBaseResourceType`, declared outside the given
sources; the base form of a descriptor, a name and a version mapping. -/
structure VolumeBaseResourceType where
  Name : String
  Version : Version
  deriving DecidableEq, Repr

/-- Modelled from the spec: the record `atc.VolumeResourceType`, declared outside the given
sources, seen through the pointer `*atc.VolumeResourceType` by which volumes.go holds it.
`nil` is the nil pointer; `mk` points to a record with an optional nested descriptor, an
optional base descriptor and a version.  Values are finite, so chains of descriptors are
acyclic. -/
inductive VolumeResourceType
  | nil
  | mk (ResourceType : VolumeResourceType) (BaseResourceType : Option VolumeBaseResourceType)
      (Version : Version)
  deriving DecidableEq, Repr

/-- Modelled from the spec: the record `atc.Volume`, declared outside the given sources.
`ResourceType` and `BaseResourceType` are pointers and may be absent; `Type_` is the Go field
`Type`. -/
structure Volume where
  ID : String
  WorkerName : String
  Type_ : String
  ContainerHandle : String
  Path : String
  ParentHandle : String
  ResourceType : VolumeResourceType
  BaseResourceType : Option VolumeBaseResourceType
  PipelineName : String
  JobName : String
  StepName : String
  deriving DecidableEq, Repr

/-- The values volumes.go passes to `presentMap`, whose parameter has type `interface{}`. -/
inductive MarshalArg
  | version (v : Version)
  | baseResourceType (b : Option VolumeBaseResourceType)
  deriving DecidableEq, Repr

/-- The text `yaml.Marshal` produces for a value (the empty text when it reports an error,
which `presentMap` discards). -/
abbrev Marshaller := MarshalArg → String

/-! ## volumes.go -/

/-- Go `presentMap`: serialize, trim, split into lines, join with commas, drop spaces. -/
def presentMap (marshal : Marshaller) (version : MarshalArg) : String :=
  let marshalled := marshal version
  let lines := strings.Split (strings.TrimSpace marshalled) '\n'
  strings.Replace (strings.Join lines ",") ' ' ""

/-- Go `presentResourceType`.  Reading a field of a nil `resourceType` panics. -/
def presentResourceType (marshal : Marshaller) : VolumeResourceType → Except GoPanic String
  | .nil => .error .nilDereference
  | .mk inner base version =>
    match base with
    | some b => .ok (presentMap marshal (.baseResourceType (some b)))
    | none =>
      match inner with
      | .mk i b v =>
        match presentResourceType marshal (.mk i b v) with
        | .error e => .error e
        | .ok innerResourceType =>
          let version := presentMap marshal (.version version)
          .ok ("type:resource(" ++ innerResourceType ++ "),version:" ++ version)
      | .nil => .ok ""

/-- The receiver of `volumeIdentifier` and `Execute`. -/
structure VolumesCommand where
  Details : Bool
  Json : Bool
  AllTeams : Bool
  Teams : List String
  deriving DecidableEq, Repr

/-- Go `(*VolumesCommand).volumeIdentifier`. -/
def VolumesCommand.volumeIdentifier (marshal : Marshaller) (command : VolumesCommand)
    (volume : Volume) : Except GoPanic String :=
  if volume.Type_ = "container" then
    if command.Details then
      let identifier := "container:" ++ volume.ContainerHandle ++ ",path:" ++ volume.Path
      if volume.ParentHandle ≠ "" then
        .ok (identifier ++ ",parent:" ++ volume.ParentHandle)
      else
        .ok identifier
    else
      .ok volume.ContainerHandle
  else if volume.Type_ = "task-cache" then
    .ok (volume.PipelineName ++ "/" ++ volume.JobName ++ "/" ++ volume.StepName)
  else if volume.Type_ = "resource" then
    if command.Details then
      presentResourceType marshal volume.ResourceType
    else
      match volume.ResourceType with
      | .nil => .error .nilDereference
      | .mk _ _ version => .ok (presentMap marshal (.version version))
  else if volume.Type_ = "resource-type" then
    if command.Details then
      .ok (presentMap marshal (.baseResourceType volume.BaseResourceType))
    else
      match volume.BaseResourceType with
      | none => .error .nilDereference
      | some b => .ok b.Name
  else
    .ok "n/a"

/-- Go `a < b` on strings: the lexicographic comparison of their characters. -/
def stringLess (a b : String) : Bool :=
  decide (a.data < b.data)

/-- The body of `volumesByWorkerAndHandle.Less` at the two elements it reads, `cs[i]` and
`cs[j]`. -/
def volumeLess (a b : Volume) : Bool :=
  if a.WorkerName = b.WorkerName then
    stringLess a.ID b.ID
  else
    stringLess a.WorkerName b.WorkerName

/-- Go `volumesByWorkerAndHandle.Less`, with the indices in range. -/
def volumesByWorkerAndHandle.Less (cs : List Volume) (i j : Fin cs.length) : Bool :=
  volumeLess (cs.get i) (cs.get j)

/-- Go `volumesByWorkerAndHandle.Len`. -/
def volumesByWorkerAndHandle.Len (cs : List Volume) : Nat := cs.length

/-- Go `volumesByWorkerAndHandle.Swap`, with the indices in range. -/
def volumesByWorkerAndHandle.Swap (cs : List Volume) (i j : Fin cs.length) : List Volume :=
  (cs.set i (cs.get j)).set j (cs.get i)

/-- What `sort.Sort` guarantees for the data it is given here: the result is a rearrangement of
the input in which no element is `Less` than an element before it.  The sort is not stable. -/
structure SortContract (sortProc : List Volume → List Volume) : Prop where
  perm : ∀ vs, (sortProc vs).Perm vs
  sorted : ∀ vs, (sortProc vs).Pairwise fun a b => volumeLess b a = false

/-- One sorting procedure that meets `SortContract`: insertion by `volumeLess`. -/
def insertionSortVolumes (vs : List Volume) : List Volume :=
  vs.insertionSort fun a b => volumeLess b a = false

/-- A cell of `ui.TableRow`: its contents and whether it is printed bold. -/
structure TableCell where
  Contents : String
  Bold : Bool
  deriving DecidableEq, Repr

/-- Go `ui.Table`: a header row and the data rows. -/
structure Table where
  Headers : List TableCell
  Data : List (List TableCell)
  deriving DecidableEq, Repr

/-- A team handle: `client.Team(name)` or the targeted team `target.Team()`. -/
inductive Team
  | named (name : String)
  | target
  deriving DecidableEq, Repr

/-- A Go error value: one made by `errors.New` in volumes.go, or one returned by a
collaborator. -/
inductive GoError
  | errorsNew (msg : String)
  | external (msg : String)
  deriving DecidableEq, Repr

/-- The calls `Execute` makes to its collaborators, in the order it makes them. -/
inductive Call
  | loadTarget
  | validate
  | listTeams
  | listVolumes (team : Team)
  | jsonPrint (volumes : List Volume)
  | render (table : Table)
  deriving DecidableEq, Repr

/-- The collaborators of `Execute`, over a state `σ` of the outside world that every call may
read and change. -/
structure Collaborators (σ : Type) where
  LoadTarget : σ → Option GoError × σ
  Validate : σ → Option GoError × σ
  ListTeams : σ → Except GoError (List String) × σ
  ListVolumes : Team → σ → Except GoError (List Volume) × σ
  JsonPrint : List Volume → σ → Option GoError × σ
  Render : Table → σ → Option GoError × σ
  Marshal : Marshaller
  SortVolumes : List Volume → List Volume

/-- How a run of `Execute` ends: it returns (nil or an error) or it panics. -/
inductive Outcome
  | returned (err : Option GoError)
  | panicked (p : GoPanic)
  deriving DecidableEq, Repr

/-- A finished run: how it ended, the calls made, the final state of the outside world. -/
structure Run (σ : Type) where
  outcome : Outcome
  calls : List Call
  state : σ

/-- The fetch loop of `Execute`: one `ListVolumes` per team, results appended to `volumes`, the
first error ends the loop. -/
def listAllVolumes {σ : Type} (ext : Collaborators σ) :
    List Team → List Volume → List Call → σ → Except GoError (List Volume) × List Call × σ
  | [], volumes, calls, s => (.ok volumes, calls, s)
  | team :: rest, volumes, calls, s =>
    match ext.ListVolumes team s with
    | (.error err, s1) => (.error err, calls ++ [.listVolumes team], s1)
    | (.ok teamVolumes, s1) =>
      listAllVolumes ext rest (volumes ++ teamVolumes) (calls ++ [.listVolumes team]) s1

/-- The row loop of `Execute`: one row per volume, in the order of the slice. -/
def tableData (marshal : Marshaller) (command : VolumesCommand) :
    List Volume → Except GoPanic (List (List TableCell))
  | [] => .ok []
  | c :: rest =>
    match command.volumeIdentifier marshal c with
    | .error p => .error p
    | .ok identifier =>
      match tableData marshal command rest with
      | .error p => .error p
      | .ok rows =>
        .ok ([⟨c.ID, false⟩, ⟨c.WorkerName, false⟩, ⟨c.Type_, false⟩, ⟨identifier, false⟩]
          :: rows)

/-- The header row of the table. -/
def tableHeaders : List TableCell :=
  [⟨"handle", true⟩, ⟨"worker", true⟩, ⟨"type", true⟩, ⟨"identifier", true⟩]

/-- The part of `Execute` after the fetch loop: JSON printing, or sorting and the table. -/
def present {σ : Type} (ext : Collaborators σ) (command : VolumesCommand)
    (volumes : List Volume) (calls : List Call) (s : σ) : Run σ :=
  if command.Json then
    match ext.JsonPrint volumes s with
    | (err, s1) => ⟨.returned err, calls ++ [.jsonPrint volumes], s1⟩
  else
    match tableData ext.Marshal command (ext.SortVolumes volumes) with
    | .error p => ⟨.panicked p, calls, s⟩
    | .ok rows =>
      let table : Table := ⟨tableHeaders, rows⟩
      match ext.Render table s with
      | (err, s1) => ⟨.returned err, calls ++ [.render table], s1⟩

/-- The part of `Execute` after team resolution: the fetch loop, then the presentation. -/
def fetchAndPresent {σ : Type} (ext : Collaborators σ) (command : VolumesCommand)
    (teams : List Team) (calls : List Call) (s : σ) : Run σ :=
  match listAllVolumes ext teams [] calls s with
  | (.error err, calls1, s1) => ⟨.returned (some err), calls1, s1⟩
  | (.ok volumes, calls1, s1) => present ext command volumes calls1 s1

/-- Go `(*VolumesCommand).Execute`. -/
def VolumesCommand.Execute {σ : Type} (ext : Collaborators σ) (command : VolumesCommand)
    (s : σ) : Run σ :=
  match ext.LoadTarget s with
  | (some err, s1) => ⟨.returned (some err), [.loadTarget], s1⟩
  | (none, s1) =>
    match ext.Validate s1 with
    | (some err, s2) => ⟨.returned (some err), [.loadTarget, .validate], s2⟩
    | (none, s2) =>
      if command.Teams.length > 0 && command.AllTeams then
        ⟨.returned (some (.errorsNew "Cannot specify both --all-teams and --team")),
          [.loadTarget, .validate], s2⟩
      else if command.AllTeams then
        match ext.ListTeams s2 with
        | (.error err, s3) => ⟨.returned (some err), [.loadTarget, .validate, .listTeams], s3⟩
        | (.ok atcTeams, s3) =>
          fetchAndPresent ext command (atcTeams.map Team.named)
            [.loadTarget, .validate, .listTeams] s3
      else if command.Teams.length > 0 then
        fetchAndPresent ext command (command.Teams.map Team.named) [.loadTarget, .validate] s2
      else
        fetchAndPresent ext command [Team.target] [.loadTarget, .validate] s2

/-! ## Notions used to state the properties -/

/-- The base descriptor at the end of a chain of nested descriptors: follow the nested
descriptor through the layers that have no base, up to the first layer that has one. -/
def chainBase : VolumeResourceType → Option VolumeBaseResourceType
  | .nil => none
  | .mk _ (some b) _ => some b
  | .mk inner none _ => chainBase inner

/-- The number of derived layers (no base, a nested descriptor) above the base of a chain. -/
def chainDepth : VolumeResourceType → Nat
  | .nil => 0
  | .mk _ (some _) _ => 0
  | .mk inner none _ => chainDepth inner + 1

/-- The cell contents of a table row, by column. -/
def rowContents (row : List TableCell) (column : Nat) : String :=
  ((row.get? column).map TableCell.Contents).getD ""

/-- The lines sigs.k8s.io/yaml writes for a string mapping whose keys and values are plain
scalars, each line behind the given indentation. -/
def yamlMapLines (indent : String) : Version → String
  | [] => ""
  | (k, v) :: rest => indent ++ k ++ ": " ++ v ++ "\n" ++ yamlMapLines indent rest

/-- A serializer for the examples: the text sigs.k8s.io/yaml writes when all names, keys and
values are plain scalars that need no quoting. -/
def sampleMarshal : Marshaller
  | .version [] => "\x7b\x7d\n"
  | .version (kv :: rest) => yamlMapLines "" (kv :: rest)
  | .baseResourceType none => "null\n"
  | .baseResourceType (some b) =>
    "name: " ++ b.Name ++ "\n" ++
      match b.Version with
      | [] => "version: \x7b\x7d\n"
      | kv :: rest => "version:\n" ++ yamlMapLines "  " (kv :: rest)

/-- Collaborators for the examples: every call succeeds, the only team listed is `main`, and
every team holds the volumes `volumes`. -/
def sampleCollaborators (volumes : List Volume) : Collaborators Unit where
  LoadTarget := fun s => (none, s)
  Validate := fun s => (none, s)
  ListTeams := fun s => (.ok ["main"], s)
  ListVolumes := fun _ s => (.ok volumes, s)
  JsonPrint := fun _ s => (none, s)
  Render := fun _ s => (none, s)
  Marshal := sampleMarshal
  SortVolumes := insertionSortVolumes

/-- A volume with every field empty and both descriptors absent. -/
def emptyVolume : Volume :=
  ⟨"", "", "", "", "", "", .nil, none, "", "", ""⟩

/-- The base descriptor `git` at version `ref: x`. -/
def gitBase : VolumeBaseResourceType := ⟨"git", [("ref", "x")]⟩

/-- A chain of two descriptors: one derived layer at version `ref: abc` around the base `git`. -/
def derivedFromGit : VolumeResourceType :=
  .mk (.mk .nil (some gitBase) []) none [("ref", "abc")]

/-- A volume of type `resource` whose resource-type descriptor is absent. -/
def resourceVolumeNoDescriptor : Volume :=
  { emptyVolume with Type_ := "resource" }

/-- A volume of type `resource-type` whose base descriptor is absent. -/
def resourceTypeVolumeNoBase : Volume :=
  { emptyVolume with Type_ := "resource-type" }

/-- A container volume with a parent. -/
def containerVolume : Volume :=
  { emptyVolume with
    ID := "v1", WorkerName := "w1", Type_ := "container", ContainerHandle := "h1",
    Path := "/scratch", ParentHandle := "p0" }

/-- A container volume without parent whose container handle is the text `parent:`. -/
def containerVolumeHandleParent : Volume :=
  { emptyVolume with Type_ := "container", ContainerHandle := "parent:" }

/-- A resource volume whose descriptor is the chain `derivedFromGit`. -/
def resourceVolume : Volume :=
  { emptyVolume with
    ID := "v2", WorkerName := "w1", Type_ := "resource", ResourceType := derivedFromGit }

/-- A task-cache volume. -/
def taskCacheVolume : Volume :=
  { emptyVolume with
    ID := "v3", WorkerName := "w2", Type_ := "task-cache", PipelineName := "p", JobName := "j",
    StepName := "s" }

/-- A volume of an unknown type that carries fields of every kind. -/
def unknownVolume : Volume :=
  { containerVolume with
    Type_ := "image", PipelineName := "p", ResourceType := derivedFromGit,
    BaseResourceType := some gitBase }

/-- A task-cache volume equal to `taskCacheVolume` in its kind's fields and different in id,
worker and the fields of the other kinds. -/
def taskCacheVolumeElsewhere : Volume :=
  { taskCacheVolume with
    ID := "v9", WorkerName := "w9", ContainerHandle := "h9", Path := "/x", ParentHandle := "p9",
    ResourceType := derivedFromGit, BaseResourceType := some gitBase }

/-- A resource-type volume whose base descriptor is `gitBase`. -/
def resourceTypeVolume : Volume :=
  { emptyVolume with
    ID := "v4", WorkerName := "w2", Type_ := "resource-type", BaseResourceType := some gitBase }

/-- Three volumes on two workers, not in sorted order. -/
def sampleVolumes : List Volume :=
  [taskCacheVolume, resourceVolume, containerVolume]

/-- The table of `sampleVolumes` with details off. -/
def sampleTable : Table :=
  ⟨tableHeaders,
    [[⟨"v1", false⟩, ⟨"w1", false⟩, ⟨"container", false⟩, ⟨"h1", false⟩],
     [⟨"v2", false⟩, ⟨"w1", false⟩, ⟨"resource", false⟩, ⟨"ref:abc", false⟩],
     [⟨"v3", false⟩, ⟨"w2", false⟩, ⟨"task-cache", false⟩, ⟨"p/j/s", false⟩]]⟩

/-- The table printed when the one volume `containerVolume` is fetched twice, details off. -/
def repeatedTable : Table :=
  ⟨tableHeaders,
    [[⟨"v1", false⟩, ⟨"w1", false⟩, ⟨"container", false⟩, ⟨"h1", false⟩],
     [⟨"v1", false⟩, ⟨"w1", false⟩, ⟨"container", false⟩, ⟨"h1", false⟩]]⟩

/-! ## Notions used to state the properties of `Execute` -/

/-- The conflict check and the team resolution of `Execute` (lines 38 to 61), started in the
world state `s`: the resolved team handles or the error, the calls made, the state left. -/
def resolveTeams {σ : Type} (ext : Collaborators σ) (command : VolumesCommand) (s : σ) :
    Except GoError (List Team) × List Call × σ :=
  if command.Teams.length > 0 && command.AllTeams then
    (.error (.errorsNew "Cannot specify both --all-teams and --team"), [], s)
  else if command.AllTeams then
    match ext.ListTeams s with
    | (.error err, s1) => (.error err, [.listTeams], s1)
    | (.ok atcTeams, s1) => (.ok (atcTeams.map Team.named), [.listTeams], s1)
  else if command.Teams.length > 0 then
    (.ok (command.Teams.map Team.named), [], s)
  else
    (.ok [Team.target], [], s)

/-- The answers of `ListVolumes` for the teams of a list, asked in order from the world state
`s`, with the state left behind; `none` when one of the fetches fails. -/
def fetchEach {σ : Type} (ext : Collaborators σ) : List Team → σ → Option (List (List Volume) × σ)
  | [], s => some ([], s)
  | team :: rest, s =>
    match ext.ListVolumes team s with
    | (.error _, _) => none
    | (.ok teamVolumes, s1) =>
      match fetchEach ext rest s1 with
      | none => none
      | some (lists, s2) => some (teamVolumes :: lists, s2)

/-- The teams for which `ListVolumes` was called, in the order of the calls. -/
def teamsFetched : List Call → List Team
  | [] => []
  | .listVolumes team :: rest => team :: teamsFetched rest
  | _ :: rest => teamsFetched rest

/-- Whether a call writes output: the JSON printer or the table renderer. -/
def Call.isOutput : Call → Bool
  | .jsonPrint _ => true
  | .render _ => true
  | _ => false

/-- The row `Execute` builds for a volume whose identifier is `identifier`. -/
def tableRow (volume : Volume) (identifier : String) : List TableCell :=
  [⟨volume.ID, false⟩, ⟨volume.WorkerName, false⟩, ⟨volume.Type_, false⟩, ⟨identifier, false⟩]

/-- Collaborators for the examples in which calls can fail: target loading answers `load`, the
team listing answers `teams`, the fetch for a team answers `fetch team`; validation and output
succeed. -/
def scriptedCollaborators (load : Option GoError) (teams : Except GoError (List String))
    (fetch : Team → Except GoError (List Volume)) : Collaborators Unit where
  LoadTarget := fun s => (load, s)
  Validate := fun s => (none, s)
  ListTeams := fun s => (teams, s)
  ListVolumes := fun team s => (fetch team, s)
  JsonPrint := fun _ s => (none, s)
  Render := fun _ s => (none, s)
  Marshal := sampleMarshal
  SortVolumes := insertionSortVolumes

/-- A fetch that fails for the team named `a` and finds one volume for every other team. -/
def fetchFailingForA (team : Team) : Except GoError (List Volume) :=
  if team = Team.named "a" then .error (.external "not authorized") else .ok [containerVolume]

/-- The two volumes of the end-to-end scenario: a container volume h1 and a task-cache volume
h2 on the worker w1. -/
def scenarioVolumes : List Volume :=
  [{ emptyVolume with
      ID := "h1", WorkerName := "w1", Type_ := "container", ContainerHandle := "h1" },
   { emptyVolume with
      ID := "h2", WorkerName := "w1", Type_ := "task-cache", PipelineName := "p",
      JobName := "j", StepName := "s" }]

/-- The table of `scenarioVolumes` with details off. -/
def scenarioTable : Table :=
  ⟨tableHeaders,
    [[⟨"h1", false⟩, ⟨"w1", false⟩, ⟨"container", false⟩, ⟨"h1", false⟩],
     [⟨"h2", false⟩, ⟨"w1", false⟩, ⟨"task-cache", false⟩, ⟨"p/j/s", false⟩]]⟩

/-! ## Notions used to state the closed form of `presentResourceType` -/

/-- The descriptor obtained by wrapping derived layers (no base) around `d`, one layer for each
version of the list; the first version is that of the innermost layer. -/
def wrapLayers (d : VolumeResourceType) : List Version → VolumeResourceType
  | [] => d
  | v :: vs => wrapLayers (.mk d none v) vs

/-- The text made of `n` copies of `s`. -/
def repeatText (s : String) : Nat → String
  | 0 => ""
  | n + 1 => s ++ repeatText s n

/-- The closing texts of the layers: "),version:" and the rendered version for each layer, the
innermost first. -/
def closingText (marshal : Marshaller) : List Version → String
  | [] => ""
  | v :: vs => "),version:" ++ presentMap marshal (.version v) ++ closingText marshal vs

/-- The closed form: one opening text for each layer, the rendered base, the closing texts. -/
def closedForm (marshal : Marshaller) (b : VolumeBaseResourceType) (versions : List Version) :
    String :=
  repeatText "type:resource(" versions.length ++
    presentMap marshal (.baseResourceType (some b)) ++ closingText marshal versions

/-- A serializer that writes only white space, whatever the value. -/
def blankMarshal : Marshaller := fun _ => " \n"

/-- A descriptor that has neither a base nor a nested descriptor. -/
def bareDescriptor : VolumeResourceType := .mk .nil none [("ref", "abc")]

/-- A descriptor that has a base, and a nested descriptor and a version besides. -/
def baseWithNested : VolumeResourceType := .mk derivedFromGit (some gitBase) [("ref", "abc")]

/-- Collaborators for the examples whose target loads but fails the validation. -/
def invalidTargetCollaborators : Collaborators Unit where
  LoadTarget := fun s => (none, s)
  Validate := fun s => (some (.external "version mismatch"), s)
  ListTeams := fun s => (.ok ["main"], s)
  ListVolumes := fun _ s => (.ok [], s)
  JsonPrint := fun _ s => (none, s)
  Render := fun _ s => (none, s)
  Marshal := sampleMarshal
  SortVolumes := insertionSortVolumes

/-! ## Helper lemmas -/

theorem presentResourceType_mk_ok (marshal : Marshaller) (inner : VolumeResourceType)
    (base : Option VolumeBaseResourceType) (version : Version) :
    ∃ s, presentResourceType marshal (.mk inner base version) = .ok s := by
  induction inner generalizing base version with
  | nil => cases base <;> simp [presentResourceType]
  | mk i b v ih =>
    cases base with
    | some b0 => simp [presentResourceType]
    | none =>
      obtain ⟨t, ht⟩ := ih b v
      simp [presentResourceType, ht]

theorem presentResourceType_derived (marshal : Marshaller) (i : VolumeResourceType)
    (b : Option VolumeBaseResourceType) (v version : Version) (t : String)
    (ht : presentResourceType marshal (.mk i b v) = .ok t) :
    presentResourceType marshal (.mk (.mk i b v) none version) =
      .ok ("type:resource(" ++ t ++ "),version:" ++ presentMap marshal (.version version)) := by
  simp [presentResourceType, ht]

/-- Along a chain, the result is never shorter than the rendering of the base. -/
theorem presentResourceType_length_ge (marshal : Marshaller) (d : VolumeResourceType)
    (base : VolumeBaseResourceType) (h : chainBase d = some base) (s : String)
    (hs : presentResourceType marshal d = .ok s) :
    (presentMap marshal (.baseResourceType (some base))).length + 24 * chainDepth d
      ≤ s.length := by
  induction d generalizing s with
  | nil => simp [chainBase] at h
  | mk inner b version ih =>
    cases b with
    | some b0 =>
      simp only [chainBase, Option.some.injEq] at h
      subst h
      simp only [presentResourceType, Except.ok.injEq] at hs
      subst hs
      simp [chainDepth]
    | none =>
      cases inner with
      | nil => simp [chainBase] at h
      | mk i b v =>
        obtain ⟨t, ht⟩ := presentResourceType_mk_ok marshal i b v
        rw [presentResourceType_derived marshal i b v version t ht] at hs
        simp only [Except.ok.injEq] at hs
        subst hs
        have h1 := ih (by simpa [chainBase] using h) t ht
        have h2 : ("type:resource(" : String).length = 14 := by decide
        have h3 : ("),version:" : String).length = 10 := by decide
        simp only [String.length_append, chainDepth, h2, h3]
        omega

/-! ## Identifier resolution -/

/-- C1 (the code departs from the claim): at a volume of type "resource" whose resource-type
descriptor is absent, volumeIdentifier dereferences the nil pointer and panics, with details on
and with details off; at a volume of type "resource-type" whose base descriptor is absent it
panics with details off.  This holds for every serializer. -/
theorem C1_volumeIdentifier_panics_on_absent_descriptor (marshal : Marshaller) :
    VolumesCommand.volumeIdentifier marshal ⟨true, false, false, []⟩ resourceVolumeNoDescriptor
        = .error .nilDereference ∧
      VolumesCommand.volumeIdentifier marshal ⟨false, false, false, []⟩
        resourceVolumeNoDescriptor = .error .nilDereference ∧
      VolumesCommand.volumeIdentifier marshal ⟨false, false, false, []⟩
        resourceTypeVolumeNoBase = .error .nilDereference :=
  ⟨rfl, rfl, rfl⟩

/-- C2 (counterexample): the chain of two descriptors `derivedFromGit` ends in the base `git`,
yet for every serializer presentResourceType does not return presentMap(base) on it; with the
sample serializer it returns the wrapped text shown. -/
theorem C2_counterexample_chain_of_two :
    chainBase derivedFromGit = some gitBase ∧
      (∀ marshal : Marshaller, presentResourceType marshal derivedFromGit ≠
        .ok (presentMap marshal (.baseResourceType (some gitBase)))) ∧
      presentResourceType sampleMarshal derivedFromGit =
        .ok "type:resource(name:git,version:,ref:x),version:ref:abc" ∧
      presentMap sampleMarshal (.baseResourceType (some gitBase)) = "name:git,version:,ref:x" := by
  refine ⟨rfl, ?_, rfl, rfl⟩
  intro marshal h
  have hlen := presentResourceType_length_ge marshal derivedFromGit gitBase rfl _ h
  have hd : chainDepth derivedFromGit = 1 := rfl
  omega

/-- C2 (amended): for every finite chain of nested descriptors that ends in a base descriptor,
presentResourceType terminates with a string and no failure; that string is presentMap(base)
exactly when the chain is the base descriptor alone, and for a descriptor with a derived layer
on top it is "type:resource(" ++ (the result for the nested descriptor, whose chain ends in the
same base) ++ "),version:" ++ presentMap(the layer's version). -/
theorem C2_presentResourceType_on_chain (marshal : Marshaller) (d : VolumeResourceType)
    (base : VolumeBaseResourceType) (h : chainBase d = some base) :
    ∃ s, presentResourceType marshal d = .ok s ∧
      (s = presentMap marshal (.baseResourceType (some base)) ↔ chainDepth d = 0) ∧
      (∀ inner version, d = .mk inner none version →
        chainBase inner = some base ∧
        ∃ t, presentResourceType marshal inner = .ok t ∧
          s = "type:resource(" ++ t ++ "),version:" ++ presentMap marshal (.version version)) := by
  cases d with
  | nil => simp [chainBase] at h
  | mk inner b version =>
    obtain ⟨s, hs⟩ := presentResourceType_mk_ok marshal inner b version
    refine ⟨s, hs, ⟨?_, ?_⟩, ?_⟩
    · intro heq
      have hlen := presentResourceType_length_ge marshal _ base h s hs
      rw [heq] at hlen
      omega
    · intro h0
      cases b with
      | some b0 =>
        simp only [chainBase, Option.some.injEq] at h
        subst h
        simpa [presentResourceType] using hs.symm
      | none => simp [chainDepth] at h0
    · intro inner0 version0 hd
      simp only [VolumeResourceType.mk.injEq] at hd
      obtain ⟨h1, h2, h3⟩ := hd
      subst h1 h2 h3
      have hb : chainBase inner = some base := by simpa [chainBase] using h
      refine ⟨hb, ?_⟩
      cases inner with
      | nil => simp [chainBase] at hb
      | mk i b v =>
        obtain ⟨t, ht⟩ := presentResourceType_mk_ok marshal i b v
        refine ⟨t, ht, ?_⟩
        rw [presentResourceType_derived marshal i b v version t ht] at hs
        simpa using hs.symm

/-- C2 (witness): the amended statement at the chain of two descriptors `derivedFromGit`. -/
theorem C2_presentResourceType_on_chain_witness :
    chainBase derivedFromGit = some gitBase ∧
      ∃ s, presentResourceType sampleMarshal derivedFromGit = .ok s ∧
        (s = presentMap sampleMarshal (.baseResourceType (some gitBase)) ↔
          chainDepth derivedFromGit = 0) ∧
        (∀ inner version, derivedFromGit = .mk inner none version →
          chainBase inner = some gitBase ∧
          ∃ t, presentResourceType sampleMarshal inner = .ok t ∧
            s = "type:resource(" ++ t ++ "),version:" ++
              presentMap sampleMarshal (.version version)) :=
  ⟨rfl, C2_presentResourceType_on_chain sampleMarshal derivedFromGit gitBase rfl⟩

/-- C3: for every volume of type "container", volumeIdentifier returns containerHandle with
details off; with details on it returns "container:" ++ containerHandle ++ ",path:" ++ path
when parentHandle is empty, and that string followed by ",parent:" ++ parentHandle when
parentHandle is non-empty. -/
theorem C3_container_identifier (marshal : Marshaller) (command : VolumesCommand)
    (volume : Volume) (hType : volume.Type_ = "container") :
    (command.Details = false →
      command.volumeIdentifier marshal volume = .ok volume.ContainerHandle) ∧
    (command.Details = true → volume.ParentHandle = "" →
      command.volumeIdentifier marshal volume =
        .ok ("container:" ++ volume.ContainerHandle ++ ",path:" ++ volume.Path)) ∧
    (command.Details = true → volume.ParentHandle ≠ "" →
      command.volumeIdentifier marshal volume =
        .ok (("container:" ++ volume.ContainerHandle ++ ",path:" ++ volume.Path) ++
          ",parent:" ++ volume.ParentHandle)) := by
  refine ⟨?_, ?_, ?_⟩
  · intro hd
    simp [VolumesCommand.volumeIdentifier, hType, hd]
  · intro hd hp
    simp [VolumesCommand.volumeIdentifier, hType, hd, hp]
  · intro hd hp
    simp [VolumesCommand.volumeIdentifier, hType, hd, hp]

/-- C3 (witness): the container volume `containerVolume`, which has a parent, with details on
and with details off. -/
theorem C3_container_identifier_witness :
    containerVolume.Type_ = "container" ∧
      VolumesCommand.volumeIdentifier sampleMarshal ⟨true, false, false, []⟩ containerVolume =
        .ok "container:h1,path:/scratch,parent:p0" ∧
      VolumesCommand.volumeIdentifier sampleMarshal ⟨false, false, false, []⟩ containerVolume =
        .ok "h1" :=
  ⟨rfl,
    (C3_container_identifier sampleMarshal ⟨true, false, false, []⟩ containerVolume rfl).2.2
      rfl (by decide),
    (C3_container_identifier sampleMarshal ⟨false, false, false, []⟩ containerVolume rfl).1 rfl⟩

/-- A block inside an appended list lies in the left part, in the right part, or across the
seam. -/
theorem infix_append_cases {α : Type} (n a b : List α) (h : n <:+: a ++ b) :
    n <:+: a ∨ n <:+: b ∨
      ∃ k, 0 < k ∧ k < n.length ∧ n.take k <:+ a ∧ n.drop k <+: b := by
  obtain ⟨s, t, hst⟩ := h
  rcases List.append_eq_append_iff.mp hst with ⟨a', ha, _⟩ | ⟨c', hc, hb⟩
  · exact Or.inl ⟨s, a', ha.symm⟩
  · rcases List.append_eq_append_iff.mp hc with ⟨x, hx, hn⟩ | ⟨y, hs, hc'⟩
    · by_cases hx0 : x = []
      · subst hx0
        simp only [List.nil_append] at hn
        subst hn
        exact Or.inr (Or.inl ⟨[], t, by simpa using hb.symm⟩)
      · by_cases hc0 : c' = []
        · subst hc0
          simp only [List.append_nil] at hn
          subst hn
          exact Or.inl ⟨s, [], by simpa using hx.symm⟩
        · refine Or.inr (Or.inr ⟨x.length, List.length_pos.mpr hx0, ?_, ?_, ?_⟩)
          · rw [hn, List.length_append]
            have := List.length_pos.mpr hc0
            omega
          · rw [hn, List.take_left]
            exact ⟨s, hx.symm⟩
          · rw [hn, List.drop_left]
            exact ⟨t, hb.symm⟩
    · subst hc'
      exact Or.inr (Or.inl ⟨y, t, by simpa using hb.symm⟩)

/-- An occurrence of `parent:` in the detailed text of a container without parent lies inside
the handle or inside the path. -/
theorem parent_infix_of_container_text (h p : List Char)
    (hin : "parent:".data <:+: "container:".data ++ (h ++ (",path:".data ++ p))) :
    "parent:".data <:+: h ∨ "parent:".data <:+: p := by
  have hlen : "parent:".data.length = 7 := rfl
  rcases infix_append_cases _ _ _ hin with h1 | h1 | ⟨k, hk0, hk1, hsuf, _⟩
  · exact absurd h1 (by decide)
  · rcases infix_append_cases _ _ _ h1 with h2 | h2 | ⟨k, hk0, hk1, _, hpre⟩
    · exact Or.inl h2
    · rcases infix_append_cases _ _ _ h2 with h3 | h3 | ⟨k, hk0, hk1, hsuf, _⟩
      · exact absurd h3 (by decide)
      · exact Or.inr h3
      · rw [hlen] at hk1
        interval_cases k <;> exact absurd hsuf (by decide)
    · rw [hlen] at hk1
      interval_cases k <;> simp [List.cons_prefix_cons] at hpre
  · rw [hlen] at hk1
    interval_cases k <;> exact absurd hsuf (by decide)

/-- C4 (counterexample): a container volume with empty parentHandle whose containerHandle is
the text "parent:"; its detailed identifier contains the substring "parent:". -/
theorem C4_counterexample_handle_contains_parent :
    containerVolumeHandleParent.Type_ = "container" ∧
      containerVolumeHandleParent.ParentHandle = "" ∧
      VolumesCommand.volumeIdentifier sampleMarshal ⟨true, false, false, []⟩
        containerVolumeHandleParent = .ok "container:parent:,path:" ∧
      strings.Contains "container:parent:,path:" "parent:" :=
  ⟨rfl, rfl, rfl, by decide⟩

/-- C4 (amended): for every volume of type "container" and details on, volumeIdentifier returns
a string; if parentHandle is non-empty the string contains "parent:"; if parentHandle is empty
the string contains "parent:" only when containerHandle or path contains it, so it does not
when neither does. -/
theorem C4_parent_substring (marshal : Marshaller) (command : VolumesCommand) (volume : Volume)
    (hType : volume.Type_ = "container") (hDetails : command.Details = true) :
    ∃ s, command.volumeIdentifier marshal volume = .ok s ∧
      (volume.ParentHandle ≠ "" → strings.Contains s "parent:") ∧
      (volume.ParentHandle = "" →
        (strings.Contains s "parent:" ↔
          strings.Contains volume.ContainerHandle "parent:" ∨
            strings.Contains volume.Path "parent:")) := by
  by_cases hp : volume.ParentHandle = ""
  · refine ⟨"container:" ++ volume.ContainerHandle ++ ",path:" ++ volume.Path, ?_, ?_, ?_⟩
    · simp [VolumesCommand.volumeIdentifier, hType, hDetails, hp]
    · intro hne
      exact absurd hp hne
    · intro _
      simp only [strings.Contains, String.data_append, List.append_assoc]
      constructor
      · exact parent_infix_of_container_text _ _
      · rintro (h1 | h1)
        · exact h1.trans (List.infix_append' _ _ _)
        · refine h1.trans (List.IsSuffix.isInfix ?_)
          exact ⟨"container:".data ++ (volume.ContainerHandle.data ++ ",path:".data), by simp⟩
  · refine ⟨("container:" ++ volume.ContainerHandle ++ ",path:" ++ volume.Path) ++ ",parent:" ++
      volume.ParentHandle, ?_, ?_, ?_⟩
    · simp [VolumesCommand.volumeIdentifier, hType, hDetails, hp]
    · intro _
      simp only [strings.Contains, String.data_append, List.append_assoc]
      refine ⟨"container:".data ++ (volume.ContainerHandle.data ++ (",path:".data ++
        (volume.Path.data ++ [',']))), volume.ParentHandle.data, ?_⟩
      simp
    · intro he
      exact absurd he hp

/-- C4 (witness): the container volume `containerVolume`, which has a parent, with details
on. -/
theorem C4_parent_substring_witness :
    containerVolume.Type_ = "container" ∧
      ∃ s, VolumesCommand.volumeIdentifier sampleMarshal ⟨true, false, false, []⟩
          containerVolume = .ok s ∧
        (containerVolume.ParentHandle ≠ "" → strings.Contains s "parent:") ∧
        (containerVolume.ParentHandle = "" →
          (strings.Contains s "parent:" ↔
            strings.Contains containerVolume.ContainerHandle "parent:" ∨
              strings.Contains containerVolume.Path "parent:")) :=
  ⟨rfl, C4_parent_substring sampleMarshal ⟨true, false, false, []⟩ containerVolume rfl rfl⟩

/-- C5: for every volume of type "resource" whose resource-type descriptor is present,
volumeIdentifier returns presentMap(version of that descriptor) with details off and the string
presentResourceType(descriptor) returns with details on; for every volume of type
"resource-type" whose base descriptor is present, it returns the base descriptor's name with
details off and presentMap(base descriptor) with details on. -/
theorem C5_resource_identifiers (marshal : Marshaller) (command : VolumesCommand)
    (volume : Volume) :
    (volume.Type_ = "resource" →
      ∀ inner base version, volume.ResourceType = .mk inner base version →
        (command.Details = false →
          command.volumeIdentifier marshal volume =
            .ok (presentMap marshal (.version version))) ∧
        (command.Details = true →
          ∃ s, presentResourceType marshal volume.ResourceType = .ok s ∧
            command.volumeIdentifier marshal volume = .ok s)) ∧
    (volume.Type_ = "resource-type" →
      ∀ b, volume.BaseResourceType = some b →
        (command.Details = false → command.volumeIdentifier marshal volume = .ok b.Name) ∧
        (command.Details = true →
          command.volumeIdentifier marshal volume =
            .ok (presentMap marshal (.baseResourceType (some b))))) := by
  refine ⟨?_, ?_⟩
  · intro hType inner base version hrt
    refine ⟨?_, ?_⟩
    · intro hd
      simp [VolumesCommand.volumeIdentifier, hType, hd, hrt]
    · intro hd
      obtain ⟨t, ht⟩ := presentResourceType_mk_ok marshal inner base version
      refine ⟨t, by rw [hrt]; exact ht, ?_⟩
      simp [VolumesCommand.volumeIdentifier, hType, hd, hrt, ht]
  · intro hType b hb
    refine ⟨?_, ?_⟩
    · intro hd
      simp [VolumesCommand.volumeIdentifier, hType, hd, hb]
    · intro hd
      simp [VolumesCommand.volumeIdentifier, hType, hd, hb]

/-- C5 (witness): the resource volume over the chain `derivedFromGit` and the resource-type
volume over the base `git`, each with details off and on, under the sample serializer. -/
theorem C5_resource_identifiers_witness :
    VolumesCommand.volumeIdentifier sampleMarshal ⟨false, false, false, []⟩ resourceVolume =
        .ok "ref:abc" ∧
      (∃ s, presentResourceType sampleMarshal resourceVolume.ResourceType = .ok s ∧
        VolumesCommand.volumeIdentifier sampleMarshal ⟨true, false, false, []⟩ resourceVolume =
          .ok s) ∧
      VolumesCommand.volumeIdentifier sampleMarshal ⟨false, false, false, []⟩
        resourceTypeVolume = .ok "git" ∧
      VolumesCommand.volumeIdentifier sampleMarshal ⟨true, false, false, []⟩
        resourceTypeVolume = .ok "name:git,version:,ref:x" :=
  ⟨((C5_resource_identifiers sampleMarshal ⟨false, false, false, []⟩ resourceVolume).1 rfl
      _ _ _ rfl).1 rfl,
    ((C5_resource_identifiers sampleMarshal ⟨true, false, false, []⟩ resourceVolume).1 rfl
      _ _ _ rfl).2 rfl,
    ((C5_resource_identifiers sampleMarshal ⟨false, false, false, []⟩ resourceTypeVolume).2 rfl
      _ rfl).1 rfl,
    ((C5_resource_identifiers sampleMarshal ⟨true, false, false, []⟩ resourceTypeVolume).2 rfl
      _ rfl).2 rfl⟩

/-- C6: for every volume of type "task-cache", volumeIdentifier returns
pipelineName ++ "/" ++ jobName ++ "/" ++ stepName, and the result is the same with details on
and with details off. -/
theorem C6_task_cache_identifier (marshal : Marshaller) (command : VolumesCommand)
    (volume : Volume) (hType : volume.Type_ = "task-cache") :
    command.volumeIdentifier marshal volume =
        .ok (volume.PipelineName ++ "/" ++ volume.JobName ++ "/" ++ volume.StepName) ∧
      VolumesCommand.volumeIdentifier marshal { command with Details := true } volume =
        VolumesCommand.volumeIdentifier marshal { command with Details := false } volume := by
  simp [VolumesCommand.volumeIdentifier, hType]

/-- C6 (witness): the task-cache volume `taskCacheVolume`. -/
theorem C6_task_cache_identifier_witness :
    taskCacheVolume.Type_ = "task-cache" ∧
      VolumesCommand.volumeIdentifier sampleMarshal ⟨true, false, false, []⟩ taskCacheVolume =
        .ok "p/j/s" ∧
      VolumesCommand.volumeIdentifier sampleMarshal ⟨true, false, false, []⟩ taskCacheVolume =
        VolumesCommand.volumeIdentifier sampleMarshal ⟨false, false, false, []⟩
          taskCacheVolume :=
  ⟨rfl, C6_task_cache_identifier sampleMarshal ⟨true, false, false, []⟩ taskCacheVolume rfl⟩

/-- C7: for every volume whose type string is none of "container", "task-cache", "resource",
"resource-type" (the empty string included), volumeIdentifier returns "n/a" with details on and
with details off, whatever the other fields hold. -/
theorem C7_unrecognized_type_identifier (marshal : Marshaller) (command : VolumesCommand)
    (volume : Volume) (h1 : volume.Type_ ≠ "container") (h2 : volume.Type_ ≠ "task-cache")
    (h3 : volume.Type_ ≠ "resource") (h4 : volume.Type_ ≠ "resource-type") :
    command.volumeIdentifier marshal volume = .ok "n/a" := by
  simp [VolumesCommand.volumeIdentifier, h1, h2, h3, h4]

/-- C7 (witness): a volume of type "image" carrying fields of every kind, with details on, and
the volume with the empty type string, with details off. -/
theorem C7_unrecognized_type_identifier_witness :
    unknownVolume.Type_ ≠ "container" ∧ emptyVolume.Type_ = "" ∧
      VolumesCommand.volumeIdentifier sampleMarshal ⟨true, false, false, []⟩ unknownVolume =
        .ok "n/a" ∧
      VolumesCommand.volumeIdentifier sampleMarshal ⟨false, false, false, []⟩ emptyVolume =
        .ok "n/a" :=
  ⟨by decide, rfl,
    C7_unrecognized_type_identifier sampleMarshal ⟨true, false, false, []⟩ unknownVolume
      (by decide) (by decide) (by decide) (by decide),
    C7_unrecognized_type_identifier sampleMarshal ⟨false, false, false, []⟩ emptyVolume
      (by decide) (by decide) (by decide) (by decide)⟩

/-- C8: volumeIdentifier consults only the fields of the volume's own kind: two volumes of the
same type that agree on that kind's fields (container: containerHandle, path, parentHandle;
task-cache: pipelineName, jobName, stepName; resource: the resource-type descriptor;
resource-type: the base descriptor; any other type: nothing) get the same result for each value
of details, however they differ in id, workerName and the fields of the other kinds. -/
theorem C8_identifier_reads_own_kind_only (marshal : Marshaller) (command : VolumesCommand)
    (v w : Volume) (hType : v.Type_ = w.Type_)
    (hContainer : v.Type_ = "container" →
      v.ContainerHandle = w.ContainerHandle ∧ v.Path = w.Path ∧
        v.ParentHandle = w.ParentHandle)
    (hTaskCache : v.Type_ = "task-cache" →
      v.PipelineName = w.PipelineName ∧ v.JobName = w.JobName ∧ v.StepName = w.StepName)
    (hResource : v.Type_ = "resource" → v.ResourceType = w.ResourceType)
    (hResourceType : v.Type_ = "resource-type" → v.BaseResourceType = w.BaseResourceType) :
    command.volumeIdentifier marshal v = command.volumeIdentifier marshal w := by
  unfold VolumesCommand.volumeIdentifier
  rw [← hType]
  by_cases h1 : v.Type_ = "container"
  · obtain ⟨e1, e2, e3⟩ := hContainer h1
    simp [h1, e1, e2, e3]
  · by_cases h2 : v.Type_ = "task-cache"
    · obtain ⟨e1, e2, e3⟩ := hTaskCache h2
      simp [h2, e1, e2, e3]
    · by_cases h3 : v.Type_ = "resource"
      · simp [h3, hResource h3]
      · by_cases h4 : v.Type_ = "resource-type"
        · simp [h4, hResourceType h4]
        · simp [h1, h2, h3, h4]

/-- C8 (witness): two task-cache volumes with the same pipeline, job and step that differ in
id, worker, the container fields and both descriptors. -/
theorem C8_identifier_reads_own_kind_only_witness :
    taskCacheVolume ≠ taskCacheVolumeElsewhere ∧
      VolumesCommand.volumeIdentifier sampleMarshal ⟨true, false, false, []⟩ taskCacheVolume =
        VolumesCommand.volumeIdentifier sampleMarshal ⟨true, false, false, []⟩
          taskCacheVolumeElsewhere :=
  ⟨by decide,
    C8_identifier_reads_own_kind_only sampleMarshal ⟨true, false, false, []⟩ taskCacheVolume
      taskCacheVolumeElsewhere rfl (fun h => absurd h (by decide)) (fun _ => ⟨rfl, rfl, rfl⟩)
      (fun h => absurd h (by decide)) (fun h => absurd h (by decide))⟩

/-! ## Ordering -/

theorem stringLess_iff (a b : String) : stringLess a b = true ↔ a < b := by
  simp [stringLess, String.lt_iff_toList_lt]

theorem volumeLess_iff (a b : Volume) :
    volumeLess a b = true ↔
      a.WorkerName < b.WorkerName ∨ (a.WorkerName = b.WorkerName ∧ a.ID < b.ID) := by
  unfold volumeLess
  by_cases h : a.WorkerName = b.WorkerName
  · simp [h, stringLess_iff]
  · simp [h, stringLess_iff]

theorem volumeLess_eq_false_iff (a b : Volume) :
    volumeLess b a = false ↔
      a.WorkerName < b.WorkerName ∨ (a.WorkerName = b.WorkerName ∧ a.ID ≤ b.ID) := by
  rw [← Bool.not_eq_true, volumeLess_iff]
  constructor
  · intro hn
    rcases lt_trichotomy a.WorkerName b.WorkerName with h | h | h
    · exact Or.inl h
    · exact Or.inr ⟨h, not_lt.mp fun hlt => hn (Or.inr ⟨h.symm, hlt⟩)⟩
    · exact absurd (Or.inl h) hn
  · rintro (h | ⟨h, h'⟩) (h2 | ⟨h2, h2'⟩)
    · exact lt_asymm h h2
    · exact h.ne' h2
    · exact h2.ne' h
    · exact not_lt.mpr h' h2'

theorem insertionSortVolumes_contract : SortContract insertionSortVolumes := by
  haveI : IsTotal Volume (fun a b => volumeLess b a = false) := ⟨by
    intro a b
    simp only [volumeLess_eq_false_iff]
    rcases lt_trichotomy a.WorkerName b.WorkerName with h | h | h
    · exact Or.inl (Or.inl h)
    · rcases le_total a.ID b.ID with h' | h'
      · exact Or.inl (Or.inr ⟨h, h'⟩)
      · exact Or.inr (Or.inr ⟨h.symm, h'⟩)
    · exact Or.inr (Or.inl h)⟩
  haveI : IsTrans Volume (fun a b => volumeLess b a = false) := ⟨by
    intro a b c
    simp only [volumeLess_eq_false_iff]
    rintro (h1 | ⟨h1, h1'⟩) (h2 | ⟨h2, h2'⟩)
    · exact Or.inl (lt_trans h1 h2)
    · exact Or.inl (h2 ▸ h1)
    · exact Or.inl (h1 ▸ h2)
    · exact Or.inr ⟨h1.trans h2, le_trans h1' h2'⟩⟩
  exact ⟨fun vs => List.perm_insertionSort _ vs, fun vs => List.sorted_insertionSort _ vs⟩

/-- The fetch loop adds no call other than `ListVolumes`. -/
theorem listAllVolumes_render {σ : Type} (ext : Collaborators σ) (table : Table)
    (teams : List Team) (volumes : List Volume) (calls : List Call) (s : σ)
    (h : Call.render table ∈ (listAllVolumes ext teams volumes calls s).2.1) :
    Call.render table ∈ calls := by
  induction teams generalizing volumes calls s with
  | nil => simpa [listAllVolumes] using h
  | cons team rest ih =>
    unfold listAllVolumes at h
    split at h
    · simpa using h
    · have h' := ih _ _ _ h
      simpa using h'

/-- A table rendered by the presentation step holds the rows of the sorted volumes. -/
theorem present_render {σ : Type} (ext : Collaborators σ) (command : VolumesCommand)
    (table : Table) (volumes : List Volume) (calls : List Call) (s : σ)
    (h : Call.render table ∈ (present ext command volumes calls s).calls) :
    Call.render table ∈ calls ∨
      tableData ext.Marshal command (ext.SortVolumes volumes) = .ok table.Data := by
  unfold present at h
  split at h
  · left
    simpa using h
  · split at h
    · exact Or.inl h
    · rename_i rows hrows
      simp only [List.mem_append, List.mem_singleton, Call.render.injEq] at h
      rcases h with h | h
      · exact Or.inl h
      · right
        rw [hrows, h]

theorem fetchAndPresent_render {σ : Type} (ext : Collaborators σ) (command : VolumesCommand)
    (table : Table) (teams : List Team) (calls : List Call) (s : σ)
    (h : Call.render table ∈ (fetchAndPresent ext command teams calls s).calls) :
    Call.render table ∈ calls ∨
      ∃ volumes, tableData ext.Marshal command (ext.SortVolumes volumes) = .ok table.Data := by
  unfold fetchAndPresent at h
  split at h
  · rename_i err calls1 s1 heq
    left
    apply listAllVolumes_render ext table teams [] calls s
    rw [heq]
    exact h
  · rename_i volumes calls1 s1 heq
    rcases present_render ext command table volumes calls1 s1 h with h' | h'
    · left
      apply listAllVolumes_render ext table teams [] calls s
      rw [heq]
      exact h'
    · exact Or.inr ⟨volumes, h'⟩

/-- Every table `Execute` renders holds the rows of a sorted list of volumes. -/
theorem Execute_render {σ : Type} (ext : Collaborators σ) (command : VolumesCommand) (s : σ)
    (table : Table) (h : Call.render table ∈ (command.Execute ext s).calls) :
    ∃ volumes, tableData ext.Marshal command (ext.SortVolumes volumes) = .ok table.Data := by
  unfold VolumesCommand.Execute at h
  split at h
  · simp at h
  · split at h
    · simp at h
    · split at h
      · simp at h
      · split at h
        · split at h
          · simp at h
          · rcases fetchAndPresent_render ext command table _ _ _ h with h' | h'
            · simp at h'
            · exact h'
        · split at h
          · rcases fetchAndPresent_render ext command table _ _ _ h with h' | h'
            · simp at h'
            · exact h'
          · rcases fetchAndPresent_render ext command table _ _ _ h with h' | h'
            · simp at h'
            · exact h'

/-- The first two cells of the rows are the ids and worker names of the volumes, in order. -/
theorem tableData_keys (marshal : Marshaller) (command : VolumesCommand) (vs : List Volume)
    (rows : List (List TableCell)) (h : tableData marshal command vs = .ok rows) :
    rows.map (fun row => (rowContents row 1, rowContents row 0)) =
      vs.map (fun v => (v.WorkerName, v.ID)) := by
  induction vs generalizing rows with
  | nil =>
    simp only [tableData, Except.ok.injEq] at h
    subst h
    rfl
  | cons c rest ih =>
    unfold tableData at h
    split at h
    · simp at h
    · split at h
      · simp at h
      · rename_i rows0 hrows0
        simp only [Except.ok.injEq] at h
        subst h
        rw [List.map_cons, List.map_cons, ih rows0 hrows0]
        rfl

/-- C9 (counterexample): with the explicit team list main, main the one volume of the team is
fetched twice; the table has two rows with the same workerName and the same id, so the id of
row 0 is not strictly below the id of row 1. -/
theorem C9_counterexample_repeated_volume :
    Call.render repeatedTable ∈
        (VolumesCommand.Execute (sampleCollaborators [containerVolume])
          ⟨false, false, false, ["main", "main"]⟩ ()).calls ∧
      (∃ r1 r2, repeatedTable.Data.get? 0 = some r1 ∧ repeatedTable.Data.get? 1 = some r2 ∧
        rowContents r1 1 = rowContents r2 1 ∧ ¬ rowContents r1 0 < rowContents r2 0) :=
  ⟨by decide, _, _, rfl, rfl, rfl, lt_irrefl _⟩

/-- C9 (amended): whenever the sorting procedure meets the contract of sort.Sort, every table
that Execute renders has its data rows in order: each adjacent pair of rows i, i+1 satisfies
workerName[i] <= workerName[i+1] and, when workerName[i] = workerName[i+1], id[i] <= id[i+1]
(equal ids occur when two fetched volumes share workerName and id). -/
theorem C9_table_rows_ordered {σ : Type} (ext : Collaborators σ)
    (hSort : SortContract ext.SortVolumes) (command : VolumesCommand) (s : σ) (table : Table)
    (hRender : Call.render table ∈ (command.Execute ext s).calls)
    (i : Nat) (r1 r2 : List TableCell)
    (h1 : table.Data.get? i = some r1) (h2 : table.Data.get? (i + 1) = some r2) :
    rowContents r1 1 ≤ rowContents r2 1 ∧
      (rowContents r1 1 = rowContents r2 1 → rowContents r1 0 ≤ rowContents r2 0) := by
  obtain ⟨volumes, hrows⟩ := Execute_render ext command s table hRender
  have hkeys := tableData_keys _ _ _ _ hrows
  have hsorted := hSort.sorted volumes
  simp only [volumeLess_eq_false_iff] at hsorted
  have hp : (table.Data.map fun row => (rowContents row 1, rowContents row 0)).Pairwise
      (fun p q : String × String => p.1 < q.1 ∨ (p.1 = q.1 ∧ p.2 ≤ q.2)) := by
    rw [hkeys, List.pairwise_map]
    exact hsorted
  rw [List.pairwise_map] at hp
  obtain ⟨hi1, e1⟩ := List.get?_eq_some.mp h1
  obtain ⟨hi2, e2⟩ := List.get?_eq_some.mp h2
  have hrel := List.pairwise_iff_get.mp hp ⟨i, hi1⟩ ⟨i + 1, hi2⟩ (by simp)
  rw [e1, e2] at hrel
  rcases hrel with h | ⟨h, h'⟩
  · exact ⟨h.le, fun he => absurd he h.ne⟩
  · exact ⟨h.le, fun _ => h'⟩

/-- C9 (witness): three volumes on two workers fetched out of order, sorted by insertion; rows
0 and 1 of the rendered table share the worker w1 and carry the ids v1, v2. -/
theorem C9_table_rows_ordered_witness :
    SortContract (sampleCollaborators sampleVolumes).SortVolumes ∧
      Call.render sampleTable ∈
        (VolumesCommand.Execute (sampleCollaborators sampleVolumes)
          ⟨false, false, false, []⟩ ()).calls ∧
      rowContents [⟨"v1", false⟩, ⟨"w1", false⟩, ⟨"container", false⟩, ⟨"h1", false⟩] 1 ≤
        rowContents [⟨"v2", false⟩, ⟨"w1", false⟩, ⟨"resource", false⟩, ⟨"ref:abc", false⟩] 1 ∧
      (rowContents [⟨"v1", false⟩, ⟨"w1", false⟩, ⟨"container", false⟩, ⟨"h1", false⟩] 1 =
        rowContents [⟨"v2", false⟩, ⟨"w1", false⟩, ⟨"resource", false⟩, ⟨"ref:abc", false⟩] 1 →
        rowContents [⟨"v1", false⟩, ⟨"w1", false⟩, ⟨"container", false⟩, ⟨"h1", false⟩] 0 ≤
          rowContents [⟨"v2", false⟩, ⟨"w1", false⟩, ⟨"resource", false⟩, ⟨"ref:abc", false⟩]
            0) :=
  ⟨insertionSortVolumes_contract, by decide,
    C9_table_rows_ordered (sampleCollaborators sampleVolumes) insertionSortVolumes_contract
      ⟨false, false, false, []⟩ () sampleTable (by decide) 0 _ _ rfl rfl⟩

/-- C10: the comparator volumesByWorkerAndHandle.Less is the strict lexicographic order on the
pair (workerName, id): Less(i, j) holds iff workerName(i) < workerName(j), or the worker names
are equal and id(i) < id(j); it is irreflexive and transitive, and for two volumes that differ in
workerName or in id exactly one of Less(i, j) and Less(j, i) holds. -/
theorem C10_Less_strict_lexicographic (cs : List Volume) (i j k : Fin cs.length) :
    (volumesByWorkerAndHandle.Less cs i j = true ↔
      (cs.get i).WorkerName < (cs.get j).WorkerName ∨
        ((cs.get i).WorkerName = (cs.get j).WorkerName ∧ (cs.get i).ID < (cs.get j).ID)) ∧
    volumesByWorkerAndHandle.Less cs i i = false ∧
    (volumesByWorkerAndHandle.Less cs i j = true → volumesByWorkerAndHandle.Less cs j k = true →
      volumesByWorkerAndHandle.Less cs i k = true) ∧
    ((cs.get i).WorkerName ≠ (cs.get j).WorkerName ∨ (cs.get i).ID ≠ (cs.get j).ID →
      (volumesByWorkerAndHandle.Less cs i j = true ∧
          volumesByWorkerAndHandle.Less cs j i = false) ∨
        (volumesByWorkerAndHandle.Less cs i j = false ∧
          volumesByWorkerAndHandle.Less cs j i = true)) := by
  unfold volumesByWorkerAndHandle.Less
  generalize cs.get i = a
  generalize cs.get j = b
  generalize cs.get k = c
  refine ⟨volumeLess_iff a b, ?_, ?_, ?_⟩
  · rw [← Bool.not_eq_true, volumeLess_iff]
    rintro (h | ⟨_, h⟩)
    · exact lt_irrefl _ h
    · exact lt_irrefl _ h
  · simp only [volumeLess_iff]
    rintro (h1 | ⟨h1, h1'⟩) (h2 | ⟨h2, h2'⟩)
    · exact Or.inl (lt_trans h1 h2)
    · exact Or.inl (h2 ▸ h1)
    · exact Or.inl (h1 ▸ h2)
    · exact Or.inr ⟨h1.trans h2, lt_trans h1' h2'⟩
  · intro hne
    rw [volumeLess_eq_false_iff b a, volumeLess_eq_false_iff a b, volumeLess_iff,
      volumeLess_iff]
    rcases lt_trichotomy a.WorkerName b.WorkerName with h | h | h
    · exact Or.inl ⟨Or.inl h, Or.inl h⟩
    · have hid : a.ID ≠ b.ID := by
        rcases hne with hne | hne
        · exact absurd h hne
        · exact hne
      rcases lt_or_gt_of_ne hid with h' | h'
      · exact Or.inl ⟨Or.inr ⟨h, h'⟩, Or.inr ⟨h, h'.le⟩⟩
      · exact Or.inr ⟨Or.inr ⟨h.symm, h'.le⟩, Or.inr ⟨h.symm, h'⟩⟩
    · exact Or.inr ⟨Or.inl h, Or.inl h⟩

/-- C10 (witness): in `sampleVolumes` the volume at index 2 (worker w1, id v1) is below the one
at index 1 (worker w1, id v2), which is below the one at index 0 (worker w2, id v3). -/
theorem C10_Less_strict_lexicographic_witness :
    volumesByWorkerAndHandle.Less sampleVolumes ⟨2, by decide⟩ ⟨1, by decide⟩ = true ∧
      volumesByWorkerAndHandle.Less sampleVolumes ⟨1, by decide⟩ ⟨0, by decide⟩ = true ∧
      volumesByWorkerAndHandle.Less sampleVolumes ⟨2, by decide⟩ ⟨0, by decide⟩ = true ∧
      volumesByWorkerAndHandle.Less sampleVolumes ⟨0, by decide⟩ ⟨2, by decide⟩ = false :=
  ⟨by decide, by decide,
    (C10_Less_strict_lexicographic sampleVolumes ⟨2, by decide⟩ ⟨1, by decide⟩
      ⟨0, by decide⟩).2.2.1 (by decide) (by decide),
    by decide⟩

/-! ## The run of `Execute` -/

/-- After the target is loaded and validated, `Execute` is the team resolution followed by the
fetch loop and the presentation. -/
theorem Execute_eq_resolve {σ : Type} (ext : Collaborators σ) (command : VolumesCommand)
    (s s1 s2 : σ) (hLoad : ext.LoadTarget s = (none, s1))
    (hValid : ext.Validate s1 = (none, s2)) :
    command.Execute ext s =
      match resolveTeams ext command s2 with
      | (.error err, calls, s3) =>
        ⟨.returned (some err), [.loadTarget, .validate] ++ calls, s3⟩
      | (.ok teams, calls, s3) =>
        fetchAndPresent ext command teams ([.loadTarget, .validate] ++ calls) s3 := by
  unfold VolumesCommand.Execute resolveTeams
  simp only [hLoad, hValid]
  by_cases hc : (decide (command.Teams.length > 0) && command.AllTeams) = true
  · rw [if_pos hc, if_pos hc]
    rfl
  · rw [if_neg hc, if_neg hc]
    by_cases ha : command.AllTeams = true
    · rw [if_pos ha, if_pos ha]
      rcases ext.ListTeams s2 with ⟨r, s3⟩
      cases r <;> rfl
    · rw [if_neg ha, if_neg ha]
      by_cases ht : command.Teams.length > 0
      · rw [if_pos ht, if_pos ht]
        rfl
      · rw [if_neg ht, if_neg ht]
        rfl

/-- When every fetch succeeds the loop appends the answers in team order and calls
`ListVolumes` once for each team. -/
theorem listAllVolumes_of_fetchEach {σ : Type} (ext : Collaborators σ) (teams : List Team)
    (volumes : List Volume) (calls : List Call) (s s1 : σ) (lists : List (List Volume))
    (h : fetchEach ext teams s = some (lists, s1)) :
    listAllVolumes ext teams volumes calls s =
      (.ok (volumes ++ lists.flatten), calls ++ teams.map Call.listVolumes, s1) := by
  induction teams generalizing volumes calls s lists with
  | nil =>
    simp only [fetchEach, Option.some.injEq, Prod.mk.injEq] at h
    obtain ⟨h1, h2⟩ := h
    subst h1 h2
    simp [listAllVolumes]
  | cons team rest ih =>
    unfold fetchEach at h
    split at h
    · simp at h
    · rename_i teamVolumes s2 heq
      split at h
      · simp at h
      · rename_i lists0 s3 heq0
        simp only [Option.some.injEq, Prod.mk.injEq] at h
        obtain ⟨h1, h2⟩ := h
        subst h1 h2
        rw [listAllVolumes]
        simp only [heq]
        rw [ih _ _ _ _ heq0]
        simp

/-- When the fetches for the teams of `pre` succeed and the next one fails, the loop ends with
that error right after the failing call. -/
theorem listAllVolumes_of_failure {σ : Type} (ext : Collaborators σ) (pre post : List Team)
    (team : Team) (volumes : List Volume) (calls : List Call) (s s1 s2 : σ)
    (lists : List (List Volume)) (err : GoError)
    (hPre : fetchEach ext pre s = some (lists, s1))
    (hFail : ext.ListVolumes team s1 = (.error err, s2)) :
    listAllVolumes ext (pre ++ team :: post) volumes calls s =
      (.error err, calls ++ (pre ++ [team]).map Call.listVolumes, s2) := by
  induction pre generalizing volumes calls s lists with
  | nil =>
    simp only [fetchEach, Option.some.injEq, Prod.mk.injEq] at hPre
    obtain ⟨h1, h2⟩ := hPre
    subst h1 h2
    simp [listAllVolumes, hFail]
  | cons t rest ih =>
    unfold fetchEach at hPre
    split at hPre
    · simp at hPre
    · rename_i teamVolumes s3 heq
      split at hPre
      · simp at hPre
      · rename_i lists0 s4 heq0
        simp only [Option.some.injEq, Prod.mk.injEq] at hPre
        obtain ⟨h1, h2⟩ := hPre
        subst h1 h2
        rw [List.cons_append, listAllVolumes]
        simp only [heq]
        rw [ih _ _ _ _ heq0]
        simp

/-- Along a team list either every fetch succeeds or there is a first fetch that fails. -/
theorem fetch_succeeds_or_fails {σ : Type} (ext : Collaborators σ) (teams : List Team) (s : σ) :
    (∃ lists s1, fetchEach ext teams s = some (lists, s1)) ∨
      ∃ pre team post lists s1 err s2, teams = pre ++ team :: post ∧
        fetchEach ext pre s = some (lists, s1) ∧ ext.ListVolumes team s1 = (.error err, s2) := by
  induction teams generalizing s with
  | nil => exact Or.inl ⟨[], s, rfl⟩
  | cons t rest ih =>
    rcases hfetch : ext.ListVolumes t s with ⟨r, s1⟩
    cases r with
    | error err => exact Or.inr ⟨[], t, rest, [], s, err, s1, rfl, rfl, hfetch⟩
    | ok teamVolumes =>
      rcases ih s1 with ⟨lists, s2, h⟩ | ⟨pre, team, post, lists, s2, err, s3, h1, h2, h3⟩
      · exact Or.inl ⟨teamVolumes :: lists, s2, by simp [fetchEach, hfetch, h]⟩
      · exact Or.inr ⟨t :: pre, team, post, teamVolumes :: lists, s2, err, s3,
          by simp [h1], by simp [fetchEach, hfetch, h2], h3⟩

theorem teamsFetched_append (a b : List Call) :
    teamsFetched (a ++ b) = teamsFetched a ++ teamsFetched b := by
  induction a with
  | nil => rfl
  | cons c rest ih => cases c <;> simp [teamsFetched, ih]

theorem teamsFetched_listVolumes (teams : List Team) :
    teamsFetched (teams.map Call.listVolumes) = teams := by
  induction teams with
  | nil => rfl
  | cons t rest ih => simp [teamsFetched, ih]

/-- The fetch loop consults `ListVolumes` only. -/
theorem fetchEach_congr {σ : Type} (ext ext' : Collaborators σ)
    (h : ext'.ListVolumes = ext.ListVolumes) (teams : List Team) (s : σ) :
    fetchEach ext' teams s = fetchEach ext teams s := by
  induction teams generalizing s with
  | nil => rfl
  | cons t rest ih => simp only [fetchEach, h, ih]

/-- The run of `Execute` in JSON mode when the teams resolve and every fetch succeeds. -/
theorem Execute_json {σ : Type} (ext : Collaborators σ) (command : VolumesCommand)
    (s s1 s2 s3 s4 : σ) (teams : List Team) (calls : List Call) (lists : List (List Volume))
    (hJson : command.Json = true) (hLoad : ext.LoadTarget s = (none, s1))
    (hValid : ext.Validate s1 = (none, s2))
    (hTeams : resolveTeams ext command s2 = (.ok teams, calls, s3))
    (hFetch : fetchEach ext teams s3 = some (lists, s4)) :
    command.Execute ext s =
      ⟨.returned (ext.JsonPrint lists.flatten s4).1,
        [.loadTarget, .validate] ++ calls ++ teams.map Call.listVolumes ++
          [.jsonPrint lists.flatten],
        (ext.JsonPrint lists.flatten s4).2⟩ := by
  rw [Execute_eq_resolve ext command s s1 s2 hLoad hValid, hTeams]
  simp only
  unfold fetchAndPresent
  rw [listAllVolumes_of_fetchEach ext teams [] _ s3 s4 lists hFetch]
  simp only [present, hJson, if_true, List.nil_append]

/-- C12: in JSON mode, when the team list resolves and every per-team fetch succeeds, the
sequence Execute hands to the JSON printer is the concatenation of the per-team volume lists in
team order, each record as fetched; the run is the same whether details is on or off and
whatever the sorting procedure and the serializer are, so no sorting and no identifier
resolution takes place. -/
theorem C12_json_mode_hands_raw_concatenation {σ : Type} (ext : Collaborators σ)
    (command : VolumesCommand) (s s1 s2 s3 s4 : σ) (teams : List Team) (calls : List Call)
    (lists : List (List Volume)) (hJson : command.Json = true)
    (hLoad : ext.LoadTarget s = (none, s1)) (hValid : ext.Validate s1 = (none, s2))
    (hTeams : resolveTeams ext command s2 = (.ok teams, calls, s3))
    (hFetch : fetchEach ext teams s3 = some (lists, s4)) :
    (command.Execute ext s).calls =
        [.loadTarget, .validate] ++ calls ++ teams.map Call.listVolumes ++
          [.jsonPrint lists.flatten] ∧
      (∀ c ∈ (command.Execute ext s).calls, ∀ table, c ≠ .render table) ∧
      ∀ (details : Bool) (marshal : Marshaller) (sortProc : List Volume → List Volume),
        VolumesCommand.Execute { ext with Marshal := marshal, SortVolumes := sortProc }
          { command with Details := details } s = command.Execute ext s := by
  have hrun := Execute_json ext command s s1 s2 s3 s4 teams calls lists hJson hLoad hValid
    hTeams hFetch
  refine ⟨by rw [hrun], ?_, ?_⟩
  · intro c hc table heq
    subst heq
    rw [hrun] at hc
    simp only [List.mem_append, List.mem_cons, List.mem_singleton, List.mem_map,
      List.not_mem_nil, or_false, reduceCtorEq, and_false, exists_false] at hc
    have hcalls : Call.render table ∉ calls := by
      unfold resolveTeams at hTeams
      split at hTeams
      · simp at hTeams
      · split at hTeams
        · split at hTeams
          · simp at hTeams
          · simp only [Prod.mk.injEq] at hTeams
            rw [← hTeams.2.1]
            simp
        · split at hTeams
          · simp only [Prod.mk.injEq] at hTeams
            rw [← hTeams.2.1]
            simp
          · simp only [Prod.mk.injEq] at hTeams
            rw [← hTeams.2.1]
            simp
    simp [hcalls] at hc
  · intro details marshal sortProc
    rw [hrun]
    exact Execute_json { ext with Marshal := marshal, SortVolumes := sortProc }
      { command with Details := details } s s1 s2 s3 s4 teams calls lists hJson hLoad hValid
      hTeams
      (by rw [fetchEach_congr ext { ext with Marshal := marshal, SortVolumes := sortProc } rfl]
          exact hFetch)

/-- C12 (witness): JSON mode with details on and the explicit teams x, y, each holding the
unsorted `sampleVolumes`; the printer receives the two lists one after the other, unsorted. -/
theorem C12_json_mode_hands_raw_concatenation_witness :
    (VolumesCommand.Execute (sampleCollaborators sampleVolumes)
        ⟨true, true, false, ["x", "y"]⟩ ()).calls =
      [.loadTarget, .validate, .listVolumes (.named "x"), .listVolumes (.named "y"),
        .jsonPrint (sampleVolumes ++ sampleVolumes)] :=
  (C12_json_mode_hands_raw_concatenation (sampleCollaborators sampleVolumes)
    ⟨true, true, false, ["x", "y"]⟩ () () () () () [.named "x", .named "y"] []
    [sampleVolumes, sampleVolumes] rfl rfl rfl rfl rfl).1

/-- The rows of the row loop: one for each volume, in order, holding the volume's id, worker
name, type and identifier. -/
theorem tableData_rows (marshal : Marshaller) (command : VolumesCommand) (vs : List Volume)
    (rows : List (List TableCell)) (h : tableData marshal command vs = .ok rows) :
    List.Forall₂
      (fun v row => ∃ identifier, command.volumeIdentifier marshal v = .ok identifier ∧
        row = tableRow v identifier) vs rows := by
  induction vs generalizing rows with
  | nil =>
    simp only [tableData, Except.ok.injEq] at h
    subst h
    exact List.Forall₂.nil
  | cons c rest ih =>
    unfold tableData at h
    split at h
    · simp at h
    · rename_i identifier hid
      split at h
      · simp at h
      · rename_i rows0 hrows0
        simp only [Except.ok.injEq] at h
        subst h
        exact List.Forall₂.cons ⟨identifier, hid, rfl⟩ (ih rows0 hrows0)

/-- The row loop succeeds when the identifier of every volume resolves. -/
theorem tableData_ok_of_identifiers (marshal : Marshaller) (command : VolumesCommand)
    (vs : List Volume)
    (h : ∀ v ∈ vs, ∃ identifier, command.volumeIdentifier marshal v = .ok identifier) :
    ∃ rows, tableData marshal command vs = .ok rows := by
  induction vs with
  | nil => exact ⟨[], rfl⟩
  | cons c rest ih =>
    obtain ⟨identifier, hid⟩ := h c (List.mem_cons_self _ _)
    obtain ⟨rows, hrows⟩ := ih fun v hv => h v (List.mem_cons_of_mem _ hv)
    exact ⟨tableRow c identifier :: rows, by simp [tableData, hid, hrows, tableRow]⟩

/-- The run of `Execute` in table mode when the teams resolve and every fetch succeeds: the
table of the sorted volumes is rendered, or the row loop panics and nothing is rendered. -/
theorem Execute_table {σ : Type} (ext : Collaborators σ) (command : VolumesCommand)
    (s s1 s2 s3 s4 : σ) (teams : List Team) (calls : List Call) (lists : List (List Volume))
    (hJson : command.Json = false) (hLoad : ext.LoadTarget s = (none, s1))
    (hValid : ext.Validate s1 = (none, s2))
    (hTeams : resolveTeams ext command s2 = (.ok teams, calls, s3))
    (hFetch : fetchEach ext teams s3 = some (lists, s4)) :
    command.Execute ext s =
      match tableData ext.Marshal command (ext.SortVolumes lists.flatten) with
      | .error p =>
        ⟨.panicked p, [.loadTarget, .validate] ++ calls ++ teams.map Call.listVolumes, s4⟩
      | .ok rows =>
        ⟨.returned (ext.Render ⟨tableHeaders, rows⟩ s4).1,
          [.loadTarget, .validate] ++ calls ++ teams.map Call.listVolumes ++
            [.render ⟨tableHeaders, rows⟩],
          (ext.Render ⟨tableHeaders, rows⟩ s4).2⟩ := by
  rw [Execute_eq_resolve ext command s s1 s2 hLoad hValid, hTeams]
  simp only
  unfold fetchAndPresent
  rw [listAllVolumes_of_fetchEach ext teams [] _ s3 s4 lists hFetch]
  simp only [present, hJson, List.nil_append]
  cases tableData ext.Marshal command (ext.SortVolumes lists.flatten) <;> rfl

/-- In table mode, when the teams resolve, every fetch succeeds and the identifier of every
fetched volume resolves, `Execute` renders the header and one row for each volume of the sorted
rearrangement of the fetched list. -/
theorem Execute_table_rows {σ : Type} (ext : Collaborators σ) (command : VolumesCommand)
    (s s1 s2 s3 s4 : σ) (teams : List Team) (calls : List Call) (lists : List (List Volume))
    (hSort : SortContract ext.SortVolumes) (hJson : command.Json = false)
    (hLoad : ext.LoadTarget s = (none, s1)) (hValid : ext.Validate s1 = (none, s2))
    (hTeams : resolveTeams ext command s2 = (.ok teams, calls, s3))
    (hFetch : fetchEach ext teams s3 = some (lists, s4))
    (hIds : ∀ v ∈ lists.flatten,
      ∃ identifier, command.volumeIdentifier ext.Marshal v = .ok identifier) :
    ∃ rows, (command.Execute ext s).calls =
        [.loadTarget, .validate] ++ calls ++ teams.map Call.listVolumes ++
          [.render ⟨tableHeaders, rows⟩] ∧
      (ext.SortVolumes lists.flatten).Perm lists.flatten ∧
      (ext.SortVolumes lists.flatten).Pairwise (fun a b => volumeLess b a = false) ∧
      List.Forall₂
        (fun v row => ∃ identifier, command.volumeIdentifier ext.Marshal v = .ok identifier ∧
          row = tableRow v identifier) (ext.SortVolumes lists.flatten) rows := by
  have hperm := hSort.perm lists.flatten
  obtain ⟨rows, hrows⟩ := tableData_ok_of_identifiers ext.Marshal command
    (ext.SortVolumes lists.flatten) fun v hv => hIds v (hperm.mem_iff.mp hv)
  refine ⟨rows, ?_, hperm, hSort.sorted _, tableData_rows _ _ _ _ hrows⟩
  rw [Execute_table ext command s s1 s2 s3 s4 teams calls lists hJson hLoad hValid hTeams
    hFetch, hrows]

/-- C11 (the code departs from the claim): for the two volumes of the end-to-end scenario, with
details off, the table has the header and the rows h1, h2 with the identifiers "h1" and "p/j/s";
but when the fetched list holds a well-formed container volume and a resource volume whose
descriptor is absent, Execute panics in the row loop after the fetch and renders no table, so
no row is produced for either volume. -/
theorem C11_table_scenario_and_missing_rows :
    (VolumesCommand.Execute (sampleCollaborators scenarioVolumes)
        ⟨false, false, false, []⟩ ()).calls =
      [.loadTarget, .validate, .listVolumes .target, .render scenarioTable] ∧
    (VolumesCommand.Execute (sampleCollaborators [containerVolume, resourceVolumeNoDescriptor])
        ⟨false, false, false, []⟩ ()).outcome = .panicked .nilDereference ∧
    (VolumesCommand.Execute (sampleCollaborators [containerVolume, resourceVolumeNoDescriptor])
        ⟨false, false, false, []⟩ ()).calls =
      [.loadTarget, .validate, .listVolumes .target] := by
  decide

/-- C13 (counterexample): all-teams is set and the explicit list holds the team a, but the
target cannot be loaded; Execute returns the error of the target loading, which is not the
configuration-conflict error. -/
theorem C13_counterexample_target_not_loaded :
    (VolumesCommand.Execute
        (scriptedCollaborators (some (.external "unknown target")) (.ok []) fun _ => .ok [])
        ⟨false, false, true, ["a"]⟩ ()).outcome =
      .returned (some (.external "unknown target")) ∧
    GoError.external "unknown target" ≠
      GoError.errorsNew "Cannot specify both --all-teams and --team" := by
  decide

/-- C13 (amended): for every configuration in which the explicit team list is non-empty and
all-teams is set, Execute returns an error and calls nothing but the target loading and
validation: ListTeams and ListVolumes are not invoked and no output is produced, in JSON and in
table mode.  The error is the configuration-conflict error when the target loads and
validates; when the target loading fails it is exactly the error of the target loading, and
when the validation fails it is exactly the error of the validation, both of which Execute runs
before the conflict check. -/
theorem C13_conflict_fails_without_queries {σ : Type} (ext : Collaborators σ)
    (command : VolumesCommand) (s : σ) (hTeams : command.Teams ≠ [])
    (hAll : command.AllTeams = true) :
    (∃ err, (command.Execute ext s).outcome = .returned (some err)) ∧
      (∀ c ∈ (command.Execute ext s).calls, c = .loadTarget ∨ c = .validate) ∧
      (∀ s1 s2, ext.LoadTarget s = (none, s1) → ext.Validate s1 = (none, s2) →
        command.Execute ext s =
          ⟨.returned (some (.errorsNew "Cannot specify both --all-teams and --team")),
            [.loadTarget, .validate], s2⟩) ∧
      (∀ err s1, ext.LoadTarget s = (some err, s1) →
        command.Execute ext s = ⟨.returned (some err), [.loadTarget], s1⟩) ∧
      (∀ s1 err s2, ext.LoadTarget s = (none, s1) → ext.Validate s1 = (some err, s2) →
        command.Execute ext s = ⟨.returned (some err), [.loadTarget, .validate], s2⟩) := by
  have hc : (decide (command.Teams.length > 0) && command.AllTeams) = true := by
    simp [hAll, List.length_pos.mpr hTeams]
  have hConflict : ∀ s1 s2, ext.LoadTarget s = (none, s1) → ext.Validate s1 = (none, s2) →
      command.Execute ext s =
        ⟨.returned (some (.errorsNew "Cannot specify both --all-teams and --team")),
          [.loadTarget, .validate], s2⟩ := by
    intro s1 s2 h1 h2
    unfold VolumesCommand.Execute
    rw [h1]
    simp only []
    rw [h2]
    simp only [hc, if_true]
  have hLoadFail : ∀ err s1, ext.LoadTarget s = (some err, s1) →
      command.Execute ext s = ⟨.returned (some err), [.loadTarget], s1⟩ := by
    intro err s1 h1
    unfold VolumesCommand.Execute
    rw [h1]
  have hValidFail : ∀ s1 err s2, ext.LoadTarget s = (none, s1) →
      ext.Validate s1 = (some err, s2) →
      command.Execute ext s = ⟨.returned (some err), [.loadTarget, .validate], s2⟩ := by
    intro s1 err s2 h1 h2
    unfold VolumesCommand.Execute
    rw [h1]
    simp only []
    rw [h2]
  refine ⟨?_, ?_, hConflict, hLoadFail, hValidFail⟩
  · rcases hl : ext.LoadTarget s with ⟨r1, s1⟩
    cases r1 with
    | some err => exact ⟨err, by rw [hLoadFail err s1 hl]⟩
    | none =>
      rcases hv : ext.Validate s1 with ⟨r2, s2⟩
      cases r2 with
      | some err => exact ⟨err, by rw [hValidFail s1 err s2 hl hv]⟩
      | none => exact ⟨_, by rw [hConflict s1 s2 hl hv]⟩
  · rcases hl : ext.LoadTarget s with ⟨r1, s1⟩
    cases r1 with
    | some err =>
      rw [hLoadFail err s1 hl]
      simp
    | none =>
      rcases hv : ext.Validate s1 with ⟨r2, s2⟩
      cases r2 with
      | some err =>
        rw [hValidFail s1 err s2 hl hv]
        simp
      | none =>
        rw [hConflict s1 s2 hl hv]
        simp

/-- C13 (witness): all-teams together with the explicit team a, in JSON mode: on a target
that loads and validates, on a target that cannot be loaded, and on a target that fails the
validation. -/
theorem C13_conflict_fails_without_queries_witness :
    VolumesCommand.Execute (sampleCollaborators sampleVolumes) ⟨false, true, true, ["a"]⟩ () =
      ⟨.returned (some (.errorsNew "Cannot specify both --all-teams and --team")),
        [.loadTarget, .validate], ()⟩ ∧
    VolumesCommand.Execute
        (scriptedCollaborators (some (.external "unknown target")) (.ok []) fun _ => .ok [])
        ⟨false, true, true, ["a"]⟩ () =
      ⟨.returned (some (.external "unknown target")), [.loadTarget], ()⟩ ∧
    VolumesCommand.Execute invalidTargetCollaborators ⟨false, true, true, ["a"]⟩ () =
      ⟨.returned (some (.external "version mismatch")), [.loadTarget, .validate], ()⟩ :=
  ⟨(C13_conflict_fails_without_queries (sampleCollaborators sampleVolumes)
      ⟨false, true, true, ["a"]⟩ () (by decide) rfl).2.2.1 () () rfl rfl,
    (C13_conflict_fails_without_queries
      (scriptedCollaborators (some (.external "unknown target")) (.ok []) fun _ => .ok [])
      ⟨false, true, true, ["a"]⟩ () (by decide) rfl).2.2.2.1 _ () rfl,
    (C13_conflict_fails_without_queries invalidTargetCollaborators
      ⟨false, true, true, ["a"]⟩ () (by decide) rfl).2.2.2.2 () _ () rfl rfl⟩

/-- The calls of the team resolution: none, or the one call of `ListTeams`. -/
theorem resolveTeams_calls {σ : Type} (ext : Collaborators σ) (command : VolumesCommand)
    (s : σ) :
    (resolveTeams ext command s).2.1 = [] ∨
      (command.AllTeams = true ∧ (resolveTeams ext command s).2.1 = [.listTeams]) := by
  unfold resolveTeams
  split
  · exact Or.inl rfl
  · split
    · rename_i ha
      split
      · exact Or.inr ⟨ha, rfl⟩
      · exact Or.inr ⟨ha, rfl⟩
    · split
      · exact Or.inl rfl
      · exact Or.inl rfl

/-- Output calls are not fetches. -/
theorem teamsFetched_of_outputs (out : List Call) (h : ∀ c ∈ out, c.isOutput = true) :
    teamsFetched out = [] := by
  induction out with
  | nil => rfl
  | cons c rest ih =>
    have hc := h c (List.mem_cons_self _ _)
    have hrest := ih fun c' hc' => h c' (List.mem_cons_of_mem _ hc')
    cases c <;> simp_all [teamsFetched, Call.isOutput]

/-- The calls of the fetch loop and the presentation: `ListVolumes` for an initial segment of
the teams (all of them when every fetch succeeds), then at most output. -/
theorem fetchAndPresent_calls {σ : Type} (ext : Collaborators σ) (command : VolumesCommand)
    (teams : List Team) (calls : List Call) (s : σ) :
    ∃ fetched out, (fetchAndPresent ext command teams calls s).calls =
        calls ++ fetched.map Call.listVolumes ++ out ∧
      fetched <+: teams ∧ (∀ c ∈ out, c.isOutput = true) ∧
      ((∃ lists s1, fetchEach ext teams s = some (lists, s1)) → fetched = teams) ∧
      (teams ≠ [] → fetched ≠ []) := by
  unfold fetchAndPresent
  rcases fetch_succeeds_or_fails ext teams s with
    ⟨lists, s1, h⟩ | ⟨pre, team, post, lists, s1, err, s2, h1, h2, h3⟩
  · rw [listAllVolumes_of_fetchEach ext teams [] calls s s1 lists h]
    simp only [present]
    split
    · exact ⟨teams, [.jsonPrint ([] ++ lists.flatten)], rfl, List.prefix_refl _,
        by simp [Call.isOutput], fun _ => rfl, id⟩
    · split
      · exact ⟨teams, [], by simp, List.prefix_refl _, by simp, fun _ => rfl, id⟩
      · exact ⟨teams, [.render _], rfl, List.prefix_refl _, by simp [Call.isOutput],
          fun _ => rfl, id⟩
  · subst h1
    rw [listAllVolumes_of_failure ext pre post team [] calls s s1 s2 lists err h2 h3]
    refine ⟨pre ++ [team], [], by simp, ⟨post, by simp⟩, by simp, ?_, by simp⟩
    rintro ⟨lists', s1', hall⟩
    exfalso
    have hlist := listAllVolumes_of_fetchEach ext (pre ++ team :: post) [] calls s s1' lists'
      hall
    rw [listAllVolumes_of_failure ext pre post team [] calls s s1 s2 lists err h2 h3] at hlist
    simp at hlist

/-- C14 (counterexample): with the explicit teams a, b the resolved list is a, b, but the fetch
for a fails and ListVolumes is never invoked for b. -/
theorem C14_counterexample_later_team_not_fetched :
    resolveTeams (scriptedCollaborators none (.ok []) fetchFailingForA)
        ⟨false, false, false, ["a", "b"]⟩ () =
      (.ok [Team.named "a", Team.named "b"], [], ()) ∧
    teamsFetched
        (VolumesCommand.Execute (scriptedCollaborators none (.ok []) fetchFailingForA)
          ⟨false, false, false, ["a", "b"]⟩ ()).calls =
      [Team.named "a"] :=
  ⟨rfl, by decide⟩

/-- When the fetches for the teams of `pre` succeed and the next one fails, the run ends with
that error right after the failing call, whatever the presentation mode. -/
theorem fetchAndPresent_of_failure {σ : Type} (ext : Collaborators σ)
    (command : VolumesCommand) (pre post : List Team) (team : Team) (calls : List Call)
    (s s1 s2 : σ) (lists : List (List Volume)) (err : GoError)
    (hPre : fetchEach ext pre s = some (lists, s1))
    (hFail : ext.ListVolumes team s1 = (.error err, s2)) :
    fetchAndPresent ext command (pre ++ team :: post) calls s =
      ⟨.returned (some err), calls ++ (pre ++ [team]).map Call.listVolumes, s2⟩ := by
  unfold fetchAndPresent
  rw [listAllVolumes_of_failure ext pre post team [] calls s s1 s2 lists err hPre hFail]

/-- C14 (amended): team resolution, reached once the target is loaded and validated, for every
configuration without conflict: when all-teams is set and ListTeams succeeds the resolved teams
are one handle per listed team in listing order; when all-teams is unset and the explicit list
is non-empty they are one handle per given name, verbatim and in the given order, and ListTeams
is not called; when both are unset or empty the only team is the targeted one and ListTeams is
not called.  ListVolumes is invoked once per resolved team in that order up to and including
the first fetch that fails: the teams fetched are an initial segment of the resolved list, the
whole list when every fetch succeeds, and the teams before the failing one followed by the
failing one, and no later team, when a fetch fails. -/
theorem C14_team_resolution {σ : Type} (ext : Collaborators σ) (command : VolumesCommand)
    (s s1 s2 : σ) (hLoad : ext.LoadTarget s = (none, s1))
    (hValid : ext.Validate s1 = (none, s2))
    (hNoConflict : ¬ (command.Teams ≠ [] ∧ command.AllTeams = true)) :
    (command.AllTeams = true → ∀ names s3, ext.ListTeams s2 = (.ok names, s3) →
      teamsFetched (command.Execute ext s).calls <+: names.map Team.named ∧
      ((∃ lists s4, fetchEach ext (names.map Team.named) s3 = some (lists, s4)) →
        teamsFetched (command.Execute ext s).calls = names.map Team.named) ∧
      (∀ pre team post lists s4 err s5, names.map Team.named = pre ++ team :: post →
        fetchEach ext pre s3 = some (lists, s4) → ext.ListVolumes team s4 = (.error err, s5) →
        teamsFetched (command.Execute ext s).calls = pre ++ [team])) ∧
    (command.AllTeams = false → command.Teams ≠ [] →
      Call.listTeams ∉ (command.Execute ext s).calls ∧
      teamsFetched (command.Execute ext s).calls <+: command.Teams.map Team.named ∧
      ((∃ lists s4, fetchEach ext (command.Teams.map Team.named) s2 = some (lists, s4)) →
        teamsFetched (command.Execute ext s).calls = command.Teams.map Team.named) ∧
      (∀ pre team post lists s4 err s5, command.Teams.map Team.named = pre ++ team :: post →
        fetchEach ext pre s2 = some (lists, s4) → ext.ListVolumes team s4 = (.error err, s5) →
        teamsFetched (command.Execute ext s).calls = pre ++ [team])) ∧
    (command.AllTeams = false → command.Teams = [] →
      Call.listTeams ∉ (command.Execute ext s).calls ∧
      teamsFetched (command.Execute ext s).calls = [Team.target]) := by
  have hrun := Execute_eq_resolve ext command s s1 s2 hLoad hValid
  refine ⟨?_, ?_, ?_⟩
  · intro hAll names s3 hList
    have hT : command.Teams = [] := by
      by_contra hne
      exact hNoConflict ⟨hne, hAll⟩
    have hres : resolveTeams ext command s2 =
        (.ok (names.map Team.named), [.listTeams], s3) := by
      simp [resolveTeams, hAll, hT, hList]
    rw [hres] at hrun
    simp only at hrun
    obtain ⟨fetched, out, hcalls, hpre, hout, hall, _⟩ :=
      fetchAndPresent_calls ext command (names.map Team.named)
        ([.loadTarget, .validate] ++ [.listTeams]) s3
    have hf : teamsFetched (command.Execute ext s).calls = fetched := by
      rw [hrun, hcalls, teamsFetched_append, teamsFetched_append, teamsFetched_listVolumes,
        teamsFetched_of_outputs out hout]
      simp [teamsFetched]
    refine ⟨hf ▸ hpre, fun h => hf ▸ hall h, ?_⟩
    intro pre team post lists s4 err s5 hsplit hfp hfail
    rw [hrun, hsplit,
      fetchAndPresent_of_failure ext command pre post team _ s3 s4 s5 lists err hfp hfail,
      teamsFetched_append, teamsFetched_listVolumes]
    simp [teamsFetched]
  · intro hAll hT
    have hres : resolveTeams ext command s2 =
        (.ok (command.Teams.map Team.named), [], s2) := by
      simp [resolveTeams, hAll, List.length_pos.mpr hT]
    rw [hres] at hrun
    simp only at hrun
    obtain ⟨fetched, out, hcalls, hpre, hout, hall, _⟩ :=
      fetchAndPresent_calls ext command (command.Teams.map Team.named)
        ([.loadTarget, .validate] ++ []) s2
    have hf : teamsFetched (command.Execute ext s).calls = fetched := by
      rw [hrun, hcalls, teamsFetched_append, teamsFetched_append, teamsFetched_listVolumes,
        teamsFetched_of_outputs out hout]
      simp [teamsFetched]
    refine ⟨?_, hf ▸ hpre, fun h => hf ▸ hall h, ?_⟩
    · rw [hrun, hcalls]
      simp only [List.append_nil, List.mem_append, List.mem_cons, List.mem_map,
        List.not_mem_nil, or_false, reduceCtorEq, and_false, exists_false, false_or]
      intro hmem
      have := hout _ hmem
      simp [Call.isOutput] at this
    · intro pre team post lists s4 err s5 hsplit hfp hfail
      rw [hrun, hsplit,
        fetchAndPresent_of_failure ext command pre post team _ s2 s4 s5 lists err hfp hfail,
        teamsFetched_append, teamsFetched_listVolumes]
      simp [teamsFetched]
  · intro hAll hT
    have hres : resolveTeams ext command s2 = (.ok [Team.target], [], s2) := by
      simp [resolveTeams, hAll, hT]
    rw [hres] at hrun
    simp only at hrun
    obtain ⟨fetched, out, hcalls, hpre, hout, _, hne⟩ :=
      fetchAndPresent_calls ext command [Team.target] ([.loadTarget, .validate] ++ []) s2
    have hfetched : fetched = [Team.target] := by
      obtain ⟨r, hr⟩ := hpre
      cases fetched with
      | nil => exact absurd rfl (hne (by simp))
      | cons a l =>
        simp only [List.cons_append, List.cons.injEq, List.append_eq_nil] at hr
        rw [hr.1, hr.2.1]
    have hf : teamsFetched (command.Execute ext s).calls = fetched := by
      rw [hrun, hcalls, teamsFetched_append, teamsFetched_append, teamsFetched_listVolumes,
        teamsFetched_of_outputs out hout]
      simp [teamsFetched]
    rw [hf]
    refine ⟨?_, hfetched⟩
    rw [hrun, hcalls]
    simp only [List.append_nil, List.mem_append, List.mem_cons, List.mem_map,
      List.not_mem_nil, or_false, reduceCtorEq, and_false, exists_false, false_or]
    intro hmem
    have := hout _ hmem
    simp [Call.isOutput] at this

/-- C14 (witness): all-teams with the listing main; the explicit teams first, a, later, where
the fetch for a fails, so that first and a are fetched and later is not; and the default
team. -/
theorem C14_team_resolution_witness :
    teamsFetched (VolumesCommand.Execute (sampleCollaborators sampleVolumes)
        ⟨false, false, true, []⟩ ()).calls = [Team.named "main"] ∧
    teamsFetched (VolumesCommand.Execute (scriptedCollaborators none (.ok []) fetchFailingForA)
        ⟨false, false, false, ["first", "a", "later"]⟩ ()).calls =
      [Team.named "first", Team.named "a"] ∧
    teamsFetched (VolumesCommand.Execute (sampleCollaborators sampleVolumes)
        ⟨false, false, false, ["x", "x"]⟩ ()).calls = [Team.named "x", Team.named "x"] ∧
    teamsFetched (VolumesCommand.Execute (sampleCollaborators sampleVolumes)
        ⟨false, false, false, []⟩ ()).calls = [Team.target] :=
  ⟨((C14_team_resolution (sampleCollaborators sampleVolumes) ⟨false, false, true, []⟩
      () () () rfl rfl (by decide)).1 rfl ["main"] () rfl).2.1 ⟨[sampleVolumes], (), rfl⟩,
    ((C14_team_resolution (scriptedCollaborators none (.ok []) fetchFailingForA)
      ⟨false, false, false, ["first", "a", "later"]⟩ () () () rfl rfl (by decide)).2.1 rfl
      (by decide)).2.2.2 [.named "first"] (.named "a") [.named "later"] [[containerVolume]] ()
      (.external "not authorized") () rfl rfl rfl,
    ((C14_team_resolution (sampleCollaborators sampleVolumes)
      ⟨false, false, false, ["x", "x"]⟩ () () () rfl rfl (by decide)).2.1 rfl
      (by decide)).2.2.1 ⟨[sampleVolumes, sampleVolumes], (), rfl⟩,
    ((C14_team_resolution (sampleCollaborators sampleVolumes) ⟨false, false, false, []⟩
      () () () rfl rfl (by decide)).2.2 rfl rfl).2⟩

/-- C15: when ListTeams fails in all-teams mode, or the fetch for some resolved team fails after
the fetches for the teams before it succeeded, Execute returns exactly the error of that call;
the calls end with the failing call, so no later team is fetched and nothing is retried, and no
output call (JSON printer or table renderer) is made. -/
theorem C15_first_failure_aborts {σ : Type} (ext : Collaborators σ) (command : VolumesCommand)
    (s s1 s2 : σ) (hLoad : ext.LoadTarget s = (none, s1))
    (hValid : ext.Validate s1 = (none, s2)) :
    (command.AllTeams = true → command.Teams = [] →
      ∀ err s3, ext.ListTeams s2 = (.error err, s3) →
        command.Execute ext s =
          ⟨.returned (some err), [.loadTarget, .validate, .listTeams], s3⟩) ∧
    (∀ teams calls s3 pre team post lists s4 err s5,
      resolveTeams ext command s2 = (.ok teams, calls, s3) →
      teams = pre ++ team :: post →
      fetchEach ext pre s3 = some (lists, s4) →
      ext.ListVolumes team s4 = (.error err, s5) →
        command.Execute ext s =
            ⟨.returned (some err),
              [.loadTarget, .validate] ++ calls ++ (pre ++ [team]).map Call.listVolumes, s5⟩ ∧
          ∀ c ∈ (command.Execute ext s).calls, c.isOutput = false) := by
  have hrun := Execute_eq_resolve ext command s s1 s2 hLoad hValid
  refine ⟨?_, ?_⟩
  · intro hAll hT err s3 hList
    have hres : resolveTeams ext command s2 = (.error err, [.listTeams], s3) := by
      simp [resolveTeams, hAll, hT, hList]
    rw [hrun, hres]
    rfl
  · intro teams calls s3 pre team post lists s4 err s5 hres hteams hpre hfail
    have hcalls := resolveTeams_calls ext command s2
    rw [hres] at hrun hcalls
    simp only at hrun hcalls
    subst hteams
    have hexec : command.Execute ext s =
        ⟨.returned (some err),
          [.loadTarget, .validate] ++ calls ++ (pre ++ [team]).map Call.listVolumes, s5⟩ := by
      rw [hrun]
      unfold fetchAndPresent
      rw [listAllVolumes_of_failure ext pre post team [] _ s3 s4 s5 lists err hpre hfail]
    refine ⟨hexec, ?_⟩
    intro c hc
    rw [hexec] at hc
    simp only [List.mem_append, List.mem_cons, List.mem_map, List.not_mem_nil, or_false,
      List.mem_singleton] at hc
    rcases hc with ((hc | hc) | hc) | ⟨t, _, hc⟩
    · subst hc; rfl
    · subst hc; rfl
    · rcases hcalls with h | ⟨_, h⟩
      · rw [h] at hc
        simp at hc
      · rw [h] at hc
        simp only [List.mem_singleton] at hc
        subst hc
        rfl
    · subst hc; rfl

/-- C15 (witness): JSON mode with the explicit teams first, a, later; the fetch for first
succeeds, the fetch for a fails; Execute returns that error after the two fetches. -/
theorem C15_first_failure_aborts_witness :
    VolumesCommand.Execute (scriptedCollaborators none (.ok []) fetchFailingForA)
        ⟨false, true, false, ["first", "a", "later"]⟩ () =
      ⟨.returned (some (.external "not authorized")),
        [.loadTarget, .validate, .listVolumes (.named "first"), .listVolumes (.named "a")],
        ()⟩ :=
  ((C15_first_failure_aborts (scriptedCollaborators none (.ok []) fetchFailingForA)
    ⟨false, true, false, ["first", "a", "later"]⟩ () () () rfl rfl).2
    [.named "first", .named "a", .named "later"] [] () [.named "first"] (.named "a")
    [.named "later"] [[containerVolume]] () (.external "not authorized") () rfl rfl rfl rfl).1

/-- The ways a run of `Execute` ends once the target is loaded and validated and the output
calls succeed: with the error of the team resolution; with an error when a fetch fails; and,
when every fetch succeeds, with success, or in table mode with the panic of the row loop. -/
theorem Execute_outcome {σ : Type} (ext : Collaborators σ) (command : VolumesCommand)
    (s s1 s2 : σ) (hLoad : ext.LoadTarget s = (none, s1))
    (hValid : ext.Validate s1 = (none, s2))
    (hPrint : ∀ volumes s', (ext.JsonPrint volumes s').1 = none)
    (hRender : ∀ table s', (ext.Render table s').1 = none) :
    (∀ err calls s3, resolveTeams ext command s2 = (.error err, calls, s3) →
      (command.Execute ext s).outcome = .returned (some err)) ∧
    (∀ teams calls s3, resolveTeams ext command s2 = (.ok teams, calls, s3) →
      (fetchEach ext teams s3 = none →
        ∃ err, (command.Execute ext s).outcome = .returned (some err)) ∧
      (∀ lists s4, fetchEach ext teams s3 = some (lists, s4) →
        (command.Json = true → (command.Execute ext s).outcome = .returned none) ∧
        (command.Json = false →
          ∀ rows, tableData ext.Marshal command (ext.SortVolumes lists.flatten) = .ok rows →
            (command.Execute ext s).outcome = .returned none) ∧
        (command.Json = false →
          ∀ p, tableData ext.Marshal command (ext.SortVolumes lists.flatten) = .error p →
            (command.Execute ext s).outcome = .panicked p))) := by
  have hrun := Execute_eq_resolve ext command s s1 s2 hLoad hValid
  refine ⟨?_, ?_⟩
  · intro err calls s3 hres
    rw [hrun, hres]
  · intro teams calls s3 hres
    refine ⟨?_, ?_⟩
    · intro hnone
      rcases fetch_succeeds_or_fails ext teams s3 with
        ⟨lists, s4, h⟩ | ⟨pre, team, post, lists, s4, err, s5, h1, h2, h3⟩
      · rw [h] at hnone
        simp at hnone
      · refine ⟨err, ?_⟩
        rw [hrun, hres]
        simp only
        unfold fetchAndPresent
        rw [h1, listAllVolumes_of_failure ext pre post team [] _ s3 s4 s5 lists err h2 h3]
    · intro lists s4 hfetch
      refine ⟨?_, ?_, ?_⟩
      · intro hJson
        rw [Execute_json ext command s s1 s2 s3 s4 teams calls lists hJson hLoad hValid hres
          hfetch]
        simp [hPrint]
      · intro hJson rows hrows
        rw [Execute_table ext command s s1 s2 s3 s4 teams calls lists hJson hLoad hValid hres
          hfetch, hrows]
        simp [hRender]
      · intro hJson p hp
        rw [Execute_table ext command s s1 s2 s3 s4 teams calls lists hJson hLoad hValid hres
          hfetch, hp]

/-- C16 (the code departs from the claim): the target loads, there is no team conflict, the
one fetch succeeds and the output calls succeed, yet in table mode Execute does not succeed
when the fetched list holds a resource volume whose descriptor is absent: it panics in the row
loop.  On the same list in JSON mode, and on the empty list in table mode, it succeeds; the
empty list gives a table without rows. -/
theorem C16_table_mode_panics_without_error :
    (VolumesCommand.Execute (sampleCollaborators [resourceVolumeNoDescriptor])
        ⟨false, false, false, []⟩ ()).outcome = .panicked .nilDereference ∧
    (VolumesCommand.Execute (sampleCollaborators [resourceVolumeNoDescriptor])
        ⟨false, true, false, []⟩ ()).outcome = .returned none ∧
    VolumesCommand.Execute (sampleCollaborators []) ⟨false, false, false, []⟩ () =
      ⟨.returned none, [.loadTarget, .validate, .listVolumes .target,
        .render ⟨tableHeaders, []⟩], ()⟩ ∧
    (VolumesCommand.Execute (sampleCollaborators []) ⟨false, true, false, []⟩ ()).calls =
      [.loadTarget, .validate, .listVolumes .target, .jsonPrint []] :=
  ⟨by decide, by decide, rfl, by decide⟩

/-! ## The text of `presentMap` and the closed form of `presentResourceType` -/

theorem splitChars_ne_nil (sep : Char) (l : List Char) : strings.splitChars sep l ≠ [] := by
  cases l with
  | nil => simp [strings.splitChars]
  | cons c cs =>
    unfold strings.splitChars
    split
    · simp
    · split <;> simp

/-- Joining the pieces of a split puts the joining character where the separator stood. -/
theorem intercalate_splitChars (sep glue : Char) (l : List Char) :
    List.intercalate [glue] (strings.splitChars sep l) =
      l.map fun c => if c = sep then glue else c := by
  induction l with
  | nil => simp [strings.splitChars, List.intercalate]
  | cons c cs ih =>
    unfold strings.splitChars
    by_cases hc : c = sep
    · rw [if_pos hc]
      rcases hs : strings.splitChars sep cs with _ | ⟨l0, ls⟩
      · exact absurd hs (splitChars_ne_nil sep cs)
      · rw [hs] at ih
        rw [List.map_cons, if_pos hc, ← ih]
        simp [List.intercalate, List.intersperse]
    · rw [if_neg hc]
      rcases hs : strings.splitChars sep cs with _ | ⟨l0, ls⟩
      · exact absurd hs (splitChars_ne_nil sep cs)
      · rw [hs] at ih
        rw [List.map_cons, if_neg hc, ← ih]
        cases ls <;> simp [List.intercalate, List.intersperse]

theorem flatMap_drop_char (a : Char) (l : List Char) :
    (l.flatMap fun c => if c = a then [] else [c]) = l.filter fun c => !decide (c = a) := by
  induction l with
  | nil => rfl
  | cons c cs ih =>
    by_cases hc : c = a
    · simp [List.flatMap_cons, hc, ← ih]
    · simp [List.flatMap_cons, hc, ← ih]

/-- The text of `presentMap`: the trimmed text of the serializer with every newline turned into
a comma and every space dropped. -/
theorem presentMap_data (marshal : Marshaller) (version : MarshalArg) :
    (presentMap marshal version).data =
      ((strings.TrimSpace (marshal version)).data.map fun c =>
        if c = '\n' then ',' else c).filter fun c => !decide (c = ' ') := by
  unfold presentMap strings.Replace strings.Join strings.Split
  simp only [List.map_map]
  have hid : (String.data ∘ String.mk) = id := rfl
  rw [hid, List.map_id]
  show (([','].intercalate
      (strings.splitChars '\n' (strings.TrimSpace (marshal version)).data)).flatMap
    fun c => if c = ' ' then [] else [c]) = _
  rw [intercalate_splitChars, flatMap_drop_char]


/-- The trimmed text is empty or starts with a character that is not white space. -/
theorem TrimSpace_head (text : String) :
    (strings.TrimSpace text).data = [] ∨
      ∃ c rest, (strings.TrimSpace text).data = c :: rest ∧ unicode.IsSpace c = false := by
  have ht : (strings.TrimSpace text).data =
      (text.data.dropWhile unicode.IsSpace).rdropWhile unicode.IsSpace := rfl
  rw [ht]
  obtain ⟨r, hr⟩ := List.rdropWhile_prefix unicode.IsSpace (text.data.dropWhile unicode.IsSpace)
  rcases hcase : (text.data.dropWhile unicode.IsSpace).rdropWhile unicode.IsSpace with
    _ | ⟨c, rest⟩
  · exact Or.inl rfl
  · right
    refine ⟨c, rest, rfl, ?_⟩
    rw [hcase] at hr
    have hne : text.data.dropWhile unicode.IsSpace ≠ [] := by
      rw [← hr]
      simp
    have hhead := List.head_dropWhile_not unicode.IsSpace text.data hne
    have hc : (text.data.dropWhile unicode.IsSpace).head hne = c := by
      simp [← hr]
    rw [hc] at hhead
    exact hhead

/-- The trimmed text is empty exactly when the text is all white space. -/
theorem TrimSpace_eq_nil_iff (text : String) :
    (strings.TrimSpace text).data = [] ↔ ∀ c ∈ text.data, unicode.IsSpace c = true := by
  have ht : (strings.TrimSpace text).data =
      (text.data.dropWhile unicode.IsSpace).rdropWhile unicode.IsSpace := rfl
  constructor
  · intro h
    rcases TrimSpace_head text with _ | ⟨c, rest, hcr, _⟩
    · rw [ht, List.rdropWhile_eq_nil_iff] at h
      by_cases hne : text.data.dropWhile unicode.IsSpace = []
      · exact List.dropWhile_eq_nil_iff.mp hne
      · have hhead := List.head_dropWhile_not unicode.IsSpace text.data hne
        have := h _ (List.head_mem hne)
        rw [this] at hhead
        exact absurd hhead (by simp)
    · rw [h] at hcr
      simp at hcr
  · intro h
    rw [ht, List.dropWhile_eq_nil_iff.mpr h]
    rfl

/-- The text of `presentMap` is empty exactly when the serializer's text is all white space. -/
theorem presentMap_eq_empty_iff (marshal : Marshaller) (version : MarshalArg) :
    presentMap marshal version = "" ↔
      ∀ c ∈ (marshal version).data, unicode.IsSpace c = true := by
  rw [← TrimSpace_eq_nil_iff, String.ext_iff, presentMap_data]
  show _ = [] ↔ _
  constructor
  · intro h
    rcases TrimSpace_head (marshal version) with h0 | ⟨c, rest, hcr, hc⟩
    · exact h0
    · exfalso
      rw [hcr] at h
      have hn : c ≠ '\n' := by
        intro he
        rw [he] at hc
        exact absurd hc (by decide)
      have hs : c ≠ ' ' := by
        intro he
        rw [he] at hc
        exact absurd hc (by decide)
      simp [hn, hs] at h
  · intro h
    rw [h]
    rfl

/-- C17 (counterexample): sigs.k8s.io/yaml writes the empty mapping as the flow mapping `{}`
and a newline, and so does the sample serializer; presentMap then returns the two characters
`{}`, not the empty string. -/
theorem C17_counterexample_empty_mapping :
    sampleMarshal (.version []) = "\x7b\x7d\n" ∧
      presentMap sampleMarshal (.version []) = "\x7b\x7d" ∧
      presentMap sampleMarshal (.version []) ≠ "" :=
  ⟨rfl, rfl, by decide⟩

/-- C17 (amended): presentMap applied to the empty mapping returns the empty string exactly
when the text the serializer writes for the empty mapping is empty or all white space; for the
text `{}` with a newline, which sigs.k8s.io/yaml writes for an empty mapping, it returns
`{}`. -/
theorem C17_presentMap_empty_mapping (marshal : Marshaller) :
    (presentMap marshal (.version []) = "" ↔
      ∀ c ∈ (marshal (.version [])).data, unicode.IsSpace c = true) ∧
    (marshal (.version []) = "\x7b\x7d\n" → presentMap marshal (.version []) = "\x7b\x7d") := by
  refine ⟨presentMap_eq_empty_iff marshal _, ?_⟩
  intro h
  unfold presentMap
  rw [h]
  rfl

/-- C17 (witness): a serializer that writes only white space gives the empty string; the
sample serializer gives `{}`. -/
theorem C17_presentMap_empty_mapping_witness :
    presentMap blankMarshal (.version []) = "" ∧
      presentMap sampleMarshal (.version []) = "\x7b\x7d" :=
  ⟨(C17_presentMap_empty_mapping blankMarshal).1.mpr (by decide),
    (C17_presentMap_empty_mapping sampleMarshal).2 rfl⟩

/-- C18: for every descriptor that is not absent: if its base descriptor is set, the result of
presentResourceType is presentMap(base), whatever its nested descriptor and version are; else
if its nested descriptor is set, the result is
"type:resource(" ++ presentResourceType(nested) ++ "),version:" ++ presentMap(version); else the
result is the empty string. -/
theorem C18_presentResourceType_cases (marshal : Marshaller) (inner : VolumeResourceType)
    (base : Option VolumeBaseResourceType) (version : Version) :
    (∀ b, base = some b →
      presentResourceType marshal (.mk inner base version) =
        .ok (presentMap marshal (.baseResourceType (some b)))) ∧
    (base = none → inner ≠ .nil →
      ∃ innerText, presentResourceType marshal inner = .ok innerText ∧
        presentResourceType marshal (.mk inner base version) =
          .ok ("type:resource(" ++ innerText ++ "),version:" ++
            presentMap marshal (.version version))) ∧
    (base = none → inner = .nil →
      presentResourceType marshal (.mk inner base version) = .ok "") := by
  refine ⟨?_, ?_, ?_⟩
  · intro b hb
    subst hb
    simp [presentResourceType]
  · intro hb hi
    subst hb
    cases inner with
    | nil => exact absurd rfl hi
    | mk i b v =>
      obtain ⟨t, ht⟩ := presentResourceType_mk_ok marshal i b v
      exact ⟨t, ht, presentResourceType_derived marshal i b v version t ht⟩
  · intro hb hi
    subst hb hi
    simp [presentResourceType]

/-- C18 (witness): a descriptor with a base and a nested descriptor; a derived descriptor
around the base `git`; a descriptor with neither. -/
theorem C18_presentResourceType_cases_witness :
    presentResourceType sampleMarshal baseWithNested = .ok "name:git,version:,ref:x" ∧
      (∃ innerText,
        presentResourceType sampleMarshal (.mk .nil (some gitBase) []) = .ok innerText ∧
        presentResourceType sampleMarshal derivedFromGit =
          .ok ("type:resource(" ++ innerText ++ "),version:" ++
            presentMap sampleMarshal (.version [("ref", "abc")]))) ∧
      presentResourceType sampleMarshal bareDescriptor = .ok "" :=
  ⟨(C18_presentResourceType_cases sampleMarshal derivedFromGit (some gitBase)
      [("ref", "abc")]).1 gitBase rfl,
    (C18_presentResourceType_cases sampleMarshal (.mk .nil (some gitBase) []) none
      [("ref", "abc")]).2.1 rfl (by decide),
    (C18_presentResourceType_cases sampleMarshal .nil none [("ref", "abc")]).2.2 rfl rfl⟩

theorem repeatText_comm (s : String) (n : Nat) : repeatText s n ++ s = s ++ repeatText s n := by
  induction n with
  | zero => simp [repeatText]
  | succ n ih => rw [repeatText, String.append_assoc, ih]

theorem repeatText_length (s : String) (n : Nat) :
    (repeatText s n).length = n * s.length := by
  induction n with
  | zero => simp [repeatText]
  | succ n ih =>
    rw [repeatText, String.length_append, ih]
    ring

/-- Wrapping layers around a descriptor puts one opening text for each layer before its text
and the closing texts of the layers after it. -/
theorem presentResourceType_wrapLayers (marshal : Marshaller) (versions : List Version)
    (i : VolumeResourceType) (b : Option VolumeBaseResourceType) (v : Version) (t : String)
    (ht : presentResourceType marshal (.mk i b v) = .ok t) :
    presentResourceType marshal (wrapLayers (.mk i b v) versions) =
      .ok (repeatText "type:resource(" versions.length ++ t ++
        closingText marshal versions) := by
  induction versions generalizing i b v t with
  | nil => simp [wrapLayers, repeatText, closingText, ht]
  | cons v1 vs ih =>
    rw [wrapLayers, ih _ _ _ _ (presentResourceType_derived marshal i b v v1 t ht)]
    congr 1
    rw [List.length_cons, repeatText, closingText, ← repeatText_comm]
    simp only [String.append_assoc]

/-- C19: for every chain of k derived descriptors without base, with the versions v_1
(innermost) to v_k (outermost), wrapped around a descriptor whose base b is set,
presentResourceType of the outermost descriptor is k copies of "type:resource(", then
presentMap(b), then "),version:" ++ presentMap(v_1) up to "),version:" ++ presentMap(v_k); the
result equals presentMap(b) only when k = 0. -/
theorem C19_presentResourceType_closed_form (marshal : Marshaller) (inner : VolumeResourceType)
    (b : VolumeBaseResourceType) (version : Version) (versions : List Version) :
    presentResourceType marshal (wrapLayers (.mk inner (some b) version) versions) =
        .ok (closedForm marshal b versions) ∧
      (closedForm marshal b versions = presentMap marshal (.baseResourceType (some b)) ↔
        versions = []) := by
  refine ⟨?_, ?_, ?_⟩
  · exact presentResourceType_wrapLayers marshal versions inner (some b) version _
      (by simp [presentResourceType])
  · intro h
    have hlen := congrArg String.length h
    simp only [closedForm, String.length_append, repeatText_length] at hlen
    have h14 : ("type:resource(" : String).length = 14 := by decide
    rw [h14] at hlen
    have hk : versions.length = 0 := by omega
    exact List.length_eq_zero.mp hk
  · intro h
    subst h
    simp [closedForm, repeatText, closingText]

/-- C20: for every value and every text the serializer writes for it, the string presentMap
returns contains no space and no newline: it is the serializer's text with the surrounding
white space trimmed, every newline replaced by a comma and every space removed. -/
theorem C20_presentMap_text (marshal : Marshaller) (version : MarshalArg) :
    ' ' ∉ (presentMap marshal version).data ∧ '\n' ∉ (presentMap marshal version).data ∧
      presentMap marshal version =
        ⟨((strings.TrimSpace (marshal version)).data.map fun c =>
          if c = '\n' then ',' else c).filter fun c => !decide (c = ' ')⟩ := by
  refine ⟨?_, ?_, ?_⟩
  · rw [presentMap_data]
    simp
  · rw [presentMap_data]
    simp only [List.mem_filter, List.mem_map, not_and]
    rintro ⟨c, _, hc⟩
    by_cases h : c = '\n'
    · rw [if_pos h] at hc
      exact absurd hc (by decide)
    · rw [if_neg h] at hc
      exact absurd hc h
  · exact String.ext (presentMap_data marshal version)
